import Mathlib

/-!
Verification of the transcript segmentation and score-aggregation pipeline
(`src/app/vtt_parser.py`, `src/app/chunker.py`, `src/app/analyzer.py`,
`src/app/aggregator.py`, `src/app/config.py`, `src/app/models.py`).

Modelling conventions:
* Python floats (time offsets in seconds, scores) are modelled by exact
  rationals `ℚ`; Python's `round` (banker's rounding, ties to even) is
  `pythonRound`, and `round(x, 1)` is `round1`.
* The tiktoken token counter is an external library; it is modelled as an
  arbitrary function `count : String → ℕ` passed as a parameter, exactly as
  the code treats it (a budget oracle).
* OpenAI calls (`_generate_criterion_reasoning`, `_generate_consolidated_analysis`,
  `_generate_management_summary`) are external collaborators; they are
  modelled as function parameters (`LlmStubs`).
* Python `dict`/`defaultdict(list)` with insertion order is modelled as an
  association list on which `bump` appends to an existing key or inserts the
  key at the end; `list.sort` with a key (Timsort, stable) is modelled by
  `List.insertionSort`, which is stable.
* Exceptions are modelled with `Except String`; `ZeroDivisionError` from
  `aggregate_scores` becomes an explicit `.error`.
* String scanning that must be executable in the kernel works on `List Char`
  (`pySplit`, `pyStrip`, ...) rather than `String.splitOn`/`String.trim`.
-/

namespace DF

/-- `VTTEntry` from `vtt_parser.py`: a single subtitle entry. -/
structure VTTEntry where
  start_seconds : ℚ
  end_seconds : ℚ
  text : String
  speaker : Option String
deriving DecidableEq, Inhabited

/-- `TimeBlock.block_number` is `Union[int, str]` in `models.py`. -/
inductive BlockNum where
  | nat (n : ℕ)
  | str (s : String)
deriving DecidableEq, Inhabited

/-- `TimeBlock` from `models.py`. -/
structure TimeBlock where
  block_number : BlockNum
  start_time : String
  end_time : String
  content : String
deriving DecidableEq, Inhabited

/-- The `block_info` dict built by `VTTParser.group_by_time_blocks`. -/
structure BlockInfo where
  block_number : ℕ
  start_time : String
  end_time : String
  start_seconds : ℚ
  end_seconds : ℚ
  content : String
  entry_count : ℕ
  entries : List VTTEntry
deriving DecidableEq, Inhabited

/-- `CriterionScore` from `models.py`. -/
structure CriterionScore where
  criterion_key : String
  criterion_name_de : String
  score : ℚ
  traffic_light : String
  justification : String
  quotes : List String
deriving DecidableEq, Inhabited

/-- `BlockAnalysis` from `models.py`. -/
structure BlockAnalysis where
  block_number : BlockNum
  time_range : String
  criteria_scores : List CriterionScore
  overall_block_score : ℚ
deriving DecidableEq, Inhabited

/-- The `management_summary` dict of `AggregatedAnalysis`: either the
`markdown` key (normal path) or the `bullets`/`detailed` keys (empty path). -/
structure ManagementSummary where
  markdown : Option String
  bullets : Option (List String)
  detailed : Option String
deriving DecidableEq, Inhabited

/-- `AggregatedAnalysis` from `models.py`. -/
structure AggregatedAnalysis where
  overall_score : ℚ
  criteria_scores : List CriterionScore
  raw_analysis : Option String
  strengths : List String
  improvement_suggestions : List String
  management_summary : ManagementSummary
deriving DecidableEq, Inhabited

/-- The three OpenAI-backed text generators of `ScoreAggregator`, treated as
external collaborators and supplied as parameters: `reasoning` models
`_generate_criterion_reasoning (key, name, score, justifications, quotes)`,
`consolidate` models `_generate_consolidated_analysis`, `mgmt` models
`_generate_management_summary`. -/
structure LlmStubs where
  reasoning : String → String → ℚ → List String → List String → String
  consolidate : List BlockAnalysis → String
  mgmt : ℚ → List CriterionScore → List BlockAnalysis → String

/-! ### Configuration (`config.py`) -/

/-- `CHUNK_DURATION_MINUTES = 30` from `config.py`. -/
def CHUNK_DURATION_MINUTES : ℕ := 30

/-- `MAX_TOKENS_PER_CHUNK = 15000` from `config.py`. -/
def MAX_TOKENS_PER_CHUNK : ℕ := 15000

/-- `CriterionInfo` from `config.py` (`name_en`, `name_de`, `rubric`). -/
structure CriterionInfo where
  name_en : String
  name_de : String
  rubric : List (ℕ × String)
deriving DecidableEq, Inhabited

/-- `EVALUATION_CRITERIA` from `config.py`: the ordered rubric, an
insertion-ordered dict keyed by criterion key. -/
def EVALUATION_CRITERIA : List (String × CriterionInfo) :=
  [ ("struktur_klarheit",
     { name_en := "Structure & Clarity", name_de := "Struktur & Klarheit",
       rubric := [(5, "Klare Agenda, roter Faden, saubere Übergänge"),
                  (4, "Größtenteils klar, kleinere Sprünge"),
                  (3, "Teilweise nachvollziehbar, unsicherer Einstieg"),
                  (2, "Kein erkennbarer Ablauf, Orientierung fehlt"),
                  (1, "Chaotisch, keine Struktur")] }),
    ("erklaerungskompetenz",
     { name_en := "Explanation Competence", name_de := "Erklärungskompetenz",
       rubric := [(5, "Komplexes einfach erklärt, Beispiele, präzise Antworten"),
                  (4, "Verständlich, aber teils abstrakt/schnell"),
                  (3, "Teils klar, teils vage"),
                  (2, "Oberflächlich, ausweichende Antworten"),
                  (1, "Unverständlich, keine Erklärung")] }),
    ("praxisbezug",
     { name_en := "Practical Relevance", name_de := "Praxisbezug",
       rubric := [(5, "Mehrere konkrete, sofort anwendbare Beispiele"),
                  (4, "Beispiele vorhanden, teils allgemein"),
                  (3, "Wenige Beispiele, oft oberflächlich"),
                  (2, "Vage, kaum Mehrwert"),
                  (1, "Kein Praxisbezug")] }),
    ("interaktivitaet",
     { name_en := "Interactivity", name_de := "Interaktivität",
       rubric := [(5, "Mehrere echte Interaktionen (Fragen, Gruppenarbeit, Diskussion)"),
                  (4, "Mind. eine Interaktion, aber oberflächlich"),
                  (3, "Angesetzt, aber abgebrochen/zu kurz"),
                  (2, "Kaum Interaktion, nur rhetorische Fragen"),
                  (1, "Keine Interaktion")] }),
    ("zeitmanagement",
     { name_en := "Time Management", name_de := "Zeitmanagement",
       rubric := [(5, "Zeitplan eingehalten, Pausen korrekt"),
                  (4, "Kleinere Abweichungen"),
                  (3, "Überzogen/zu schnell, aber tolerierbar"),
                  (2, "Deutlich überzogen (>10-15 Min.)"),
                  (1, "Keine Zeitkontrolle")] }),
    ("zielgruppenanpassung",
     { name_en := "Target Group Adaptation", name_de := "Anpassung an Zielgruppe",
       rubric := [(5, "Perfekt anfängergerecht, kein Vorwissen nötig"),
                  (4, "Großteils passend, einzelne Stellen komplex"),
                  (3, "Mischform: teils verständlich, teils abstrakt"),
                  (2, "Meist zu schwer/oberflächlich"),
                  (1, "Zielgruppe komplett verfehlt")] }),
    ("kommunikationsstil",
     { name_en := "Communication Style", name_de := "Kommunikationsstil",
       rubric := [(5, "Klar, strukturiert, motivierend, wertschätzend"),
                  (4, "Positiv, kleinere Schwächen (Füllwörter)"),
                  (3, "Freundlich, aber monoton/unsicher"),
                  (2, "Holprig, distanziert"),
                  (1, "Negativ, verwirrend")] }),
    ("engagement_begeisterung",
     { name_en := "Engagement & Enthusiasm", name_de := "Engagement & Begeisterung",
       rubric := [(5, "Hohe Energie, Begeisterung spürbar"),
                  (4, "Engagement vorhanden, nicht durchgängig"),
                  (3, "Bemüht, aber routiniert/monoton"),
                  (2, "Wenig Leidenschaft"),
                  (1, "Lustlos")] }),
    ("empathie_umgang",
     { name_en := "Empathy & Student Interaction",
       name_de := "Empathie & Umgang mit Teilnehmern",
       rubric := [(5, "Sehr geduldig, jede Frage ernst genommen"),
                  (4, "Freundlich, einzelne Antworten zu kurz"),
                  (3, "Respektvoll, teils abweisend/unklar"),
                  (2, "Mehrfach ungeduldig"),
                  (1, "Respektlos")] }),
    ("technische_herausforderungen",
     { name_en := "Technical Challenges",
       name_de := "Umgang mit technischen Herausforderungen",
       rubric := [(5, "Souverän gelöst, kein Einfluss"),
                  (4, "Kleinere Störungen, gut behoben"),
                  (3, "Störungen leicht beeinträchtigend"),
                  (2, "Probleme erheblich"),
                  (1, "Sitzung massiv gestört")] }) ]

/-- The rubric's declared key order: `list(EVALUATION_CRITERIA.keys())`. -/
def rubricKeys : List String := EVALUATION_CRITERIA.map Prod.fst

/-- `TRAFFIC_LIGHTS = {5: 🟢, 4: 🟢, 3: 🟡, 2: 🔴, 1: 🔴}` from `config.py`. -/
def TRAFFIC_LIGHTS : List (ℤ × String) :=
  [(5, "🟢"), (4, "🟢"), (3, "🟡"), (2, "🔴"), (1, "🔴")]

/-- `TRAFFIC_LIGHTS.get(score, "🟡")`. -/
def trafficLightsGet (k : ℤ) : String := (TRAFFIC_LIGHTS.lookup k).getD "🟡"

/-! ### Rounding (Python semantics) -/

/-- Python's built-in `round` to an integer: nearest integer, ties to the
even neighbour (banker's rounding). -/
def pythonRound (q : ℚ) : ℤ :=
  let f : ℤ := ⌊q⌋
  let r : ℚ := q - f
  if r < 1/2 then f
  else if 1/2 < r then f + 1
  else if f % 2 = 0 then f else f + 1

/-- Python's `round(x, 1)`: one decimal place, ties to even. -/
def round1 (q : ℚ) : ℚ := ((pythonRound (q * 10) : ℤ) : ℚ) / 10

/-- Arithmetic mean `sum(scores) / len(scores)` of a list of rationals. -/
def mean (l : List ℚ) : ℚ := l.sum / (l.length : ℚ)

/-- Modelled from the spec: rounding to the nearest integer "with ties
rounding up" (round half up), the rounding rule the specification ascribes
to the traffic-light derivation. Used only to compare the spec's rule with
the code's `pythonRound`. -/
def specRoundHalfUp (q : ℚ) : ℤ := ⌊q + 1/2⌋

/-! ### Character-level string utilities

Python's `str.split` / `str.strip` / `int` / `float`, modelled structurally
on `List Char` so the kernel can evaluate them. `pyFloat?` covers the
decimal grammar `[+-]digits[.digits]` that VTT second fields use (Python's
`float` also accepts exponents etc., which never arise here). -/

/-- `s.split(sep)` for a one-character separator (always returns at least
one piece, like Python). -/
def pySplit (sep : Char) : List Char → List Char → List (List Char)
  | [], acc => [acc.reverse]
  | c :: cs, acc => if c = sep then acc.reverse :: pySplit sep cs [] else pySplit sep cs (c :: acc)

/-- `s.strip()`: remove leading and trailing whitespace. -/
def pyStrip (l : List Char) : List Char :=
  ((l.dropWhile Char.isWhitespace).reverse.dropWhile Char.isWhitespace).reverse

/-- A nonempty all-digit character list read as a natural number. -/
def digitsToNat? (l : List Char) : Option ℕ :=
  if l.isEmpty ∨ ¬ l.all Char.isDigit then none
  else some (l.foldl (fun n c => 10 * n + (c.toNat - 48)) 0)

/-- Python `int(s)` on a string of an optionally signed decimal integer. -/
def pyInt? (s : List Char) : Option ℤ :=
  match pyStrip s with
  | '-' :: ds => (digitsToNat? ds).map (fun n => -(n : ℤ))
  | '+' :: ds => (digitsToNat? ds).map (fun n => (n : ℤ))
  | ds => (digitsToNat? ds).map (fun n => (n : ℤ))

/-- Python `float(s)` on a plain decimal string, as an exact rational. -/
def pyFloat? (s : List Char) : Option ℚ :=
  let t := pyStrip s
  let (sgn, t) : ℚ × List Char :=
    match t with
    | '-' :: rest => (-1, rest)
    | '+' :: rest => (1, rest)
    | _ => (1, t)
  match pySplit '.' t [] with
  | [a] => (digitsToNat? a).map (fun n => sgn * (n : ℚ))
  | [a, b] =>
    if a.isEmpty ∧ b.isEmpty then none
    else if (a.isEmpty ∨ (digitsToNat? a).isSome) ∧ (b.isEmpty ∨ (digitsToNat? b).isSome) then
      some (sgn * (((digitsToNat? a).getD 0 : ℚ) + ((digitsToNat? b).getD 0 : ℚ) / (10 ^ b.length)))
    else none
  | _ => none

/-! ### VTT parser (`vtt_parser.py`) -/

/-- `VTTParser._time_to_seconds`: parse `HH:MM:SS.mmm` into seconds.
`int(parts[0])`, `int(parts[1])`, `float(parts[2])`; any failure (too few
parts or non-numeric text) raises `ValueError(f"Invalid time format: ...")`,
modelled as `.error` naming the offending time string. -/
def time_to_seconds (time_str : String) : Except String ℚ :=
  let parts := pySplit ':' time_str.data []
  match parts.get? 0, parts.get? 1, parts.get? 2 with
  | some p0, some p1, some p2 =>
    match pyInt? p0, pyInt? p1, pyFloat? p2 with
    | some hours, some minutes, some seconds_with_ms =>
      .ok ((hours : ℚ) * 3600 + (minutes : ℚ) * 60 + seconds_with_ms)
    | _, _, _ => .error ("Invalid time format: " ++ time_str)
  | _, _, _ => .error ("Invalid time format: " ++ time_str)

/-- First speaker pattern `^Speaker\s+([A-Z]):\s*(.*)$` with `IGNORECASE`
(so the letter may be lower case). Returns (speaker, remaining text). -/
def speakerPat1 (l : List Char) : Option (String × String) :=
  match l with
  | s :: p :: e1 :: a :: k :: e2 :: r :: rest =>
    if s.toLower = 's' ∧ p.toLower = 'p' ∧ e1.toLower = 'e' ∧ a.toLower = 'a' ∧
       k.toLower = 'k' ∧ e2.toLower = 'e' ∧ r.toLower = 'r' then
      let ws := rest.takeWhile Char.isWhitespace
      if ws.isEmpty then none
      else
        match rest.dropWhile Char.isWhitespace with
        | c :: ':' :: rest2 =>
          if c.isAlpha then
            some (String.mk [c], String.mk (rest2.dropWhile Char.isWhitespace))
          else none
        | _ => none
    else none
  | _ => none

/-- Second speaker pattern `^([A-Z]):\s*(.*)$` (upper case only). -/
def speakerPat2 (l : List Char) : Option (String × String) :=
  match l with
  | c :: ':' :: rest =>
    if c.isUpper then some (String.mk [c], String.mk (rest.dropWhile Char.isWhitespace))
    else none
  | _ => none

/-- Third speaker pattern `^\[([^\]]+)\]:\s*(.*)$`. -/
def speakerPat3 (l : List Char) : Option (String × String) :=
  match l with
  | '[' :: rest =>
    let name := rest.takeWhile (fun c => c ≠ ']')
    if name.isEmpty then none
    else
      match rest.drop name.length with
      | ']' :: ':' :: rest2 =>
        some (String.mk name, String.mk (rest2.dropWhile Char.isWhitespace))
      | _ => none
  | _ => none

/-- `VTTParser.extract_speaker`: try the three patterns in order on the
stripped text; on a match the captured group 2 is stripped again, otherwise
the stripped raw text is kept with no speaker. -/
def extract_speaker (text : String) : Option String × String :=
  let t := pyStrip text.data
  match speakerPat1 t with
  | some (sp, tx) => (some sp, String.mk (pyStrip tx.data))
  | none =>
    match speakerPat2 t with
    | some (sp, tx) => (some sp, String.mk (pyStrip tx.data))
    | none =>
      match speakerPat3 t with
      | some (sp, tx) => (some sp, String.mk (pyStrip tx.data))
      | none => (none, String.mk t)

/-- A raw caption as delivered by the `webvtt` library: start and end time
strings plus the cue text. -/
structure RawCaption where
  startStr : String
  endStr : String
  text : String
deriving DecidableEq, Inhabited

/-- `VTTParser.parse_vtt_file`'s caption loop: convert every caption into a
`VTTEntry`; the first bad time string aborts the whole parse with its error
(no partial list is returned). -/
def parse_vtt_captions : List RawCaption → Except String (List VTTEntry)
  | [] => .ok []
  | c :: rest => do
    let (speaker, clean_text) := extract_speaker c.text
    let start_seconds ← time_to_seconds c.startStr
    let end_seconds ← time_to_seconds c.endStr
    let entries ← parse_vtt_captions rest
    pure ({ start_seconds := start_seconds, end_seconds := end_seconds,
            text := clean_text, speaker := speaker } :: entries)

/-- `%02d` padding used by `seconds_to_time_string`. -/
def pad2 (n : ℤ) : String := if 0 ≤ n ∧ n < 10 then "0" ++ toString n else toString n

/-- `VTTParser.seconds_to_time_string`: `HH:MM` display form. -/
def seconds_to_time_string (seconds : ℚ) : String :=
  let hours : ℤ := ⌊seconds / 3600⌋
  let minutes : ℤ := ⌊(seconds - 3600 * (hours : ℚ)) / 60⌋
  pad2 hours ++ ":" ++ pad2 minutes

/-! ### `VTTParser.group_by_time_blocks` -/

/-- The entries whose `start_seconds` falls in the window `[lo, hi)`. -/
def blockEntries (entries : List VTTEntry) (lo hi : ℚ) : List VTTEntry :=
  entries.filter (fun e => decide (lo ≤ e.start_seconds) && decide (e.start_seconds < hi))

/-- Window content: a fresh `"Speaker X: "` prefix is emitted whenever the
speaker changes; entries without a speaker keep the current speaker. -/
def buildBlockParts : List VTTEntry → Option String → List String
  | [], _ => []
  | e :: rest, cur =>
    match e.speaker with
    | some s =>
      if some s ≠ cur then ("Speaker " ++ s ++ ": " ++ e.text) :: buildBlockParts rest (some s)
      else e.text :: buildBlockParts rest cur
    | none => e.text :: buildBlockParts rest cur

/-- Materialize one window's `block_info` dict. -/
def mkBlockInfo (n : ℕ) (lo hi : ℚ) (bes : List VTTEntry) : BlockInfo :=
  { block_number := n
    start_time := seconds_to_time_string lo
    end_time := seconds_to_time_string hi
    start_seconds := lo
    end_seconds := hi
    content := String.intercalate " " (buildBlockParts bes none)
    entry_count := bes.length
    entries := bes }

/-- The while-loop's windows `[k·D, (k+1)·D)` for `k·D < total`, keeping
only windows holding at least one entry start (`if block_entries:`).
For `0 < D` the loop runs exactly for `k < ⌈total / D⌉₊`. -/
def nonemptyWindows (entries : List VTTEntry) (D total : ℚ) : List (ℕ × List VTTEntry) :=
  (List.range ⌈total / D⌉₊).filterMap (fun (k : ℕ) =>
    let bes := blockEntries entries ((k : ℚ) * D) ((k : ℚ) * D + D)
    if bes.isEmpty then none else some (k, bes))

/-- Assign 1-based block numbers in emission order (`block_number += 1`
only when a block is emitted). -/
def numberBlocks (D : ℚ) : ℕ → List (ℕ × List VTTEntry) → List BlockInfo
  | _, [] => []
  | n, (k, bes) :: rest =>
    mkBlockInfo n ((k : ℚ) * D) ((k : ℚ) * D + D) bes :: numberBlocks D (n + 1) rest

/-- `VTTParser.group_by_time_blocks`: fixed windows of
`block_duration_minutes * 60` seconds starting at 0, with
`total_duration = entries[-1].end_seconds`. -/
def group_by_time_blocks (entries : List VTTEntry) (block_duration_minutes : ℕ) :
    List BlockInfo :=
  if entries.isEmpty then []
  else
    let block_duration_seconds : ℚ := (block_duration_minutes : ℚ) * 60
    let total_duration : ℚ := (entries.getLastD default).end_seconds
    numberBlocks block_duration_seconds 1
      (nonemptyWindows entries block_duration_seconds total_duration)

/-! ### Chunker (`chunker.py`)

`TranscriptionChunker` takes a tiktoken encoder; the token counter is
passed here as a parameter `count : String → ℕ`. -/

/-- `f"Speaker {entry.speaker}: {entry.text}" if entry.speaker else entry.text`,
the per-entry text used by `_split_vtt_block`. -/
def entryText (e : VTTEntry) : String :=
  match e.speaker with
  | some s => "Speaker " ++ s ++ ": " ++ e.text
  | none => e.text

/-- The greedy left-to-right accumulation shared by `_split_vtt_block`,
`create_fallback_blocks` and `_split_large_block`: items are appended to the
current group while the running token total stays within `limit`; when
adding the next item would exceed `limit` and the current group is nonempty,
the group is closed and a new one starts with that item. Returns the groups
in order. `acc` is the current group and `tok` its running token total. -/
def greedy (w : α → ℕ) (limit : ℕ) : List α → List α → ℕ → List (List α)
  | [], acc, _ => if acc.isEmpty then [] else [acc]
  | x :: xs, acc, tok =>
    if limit < tok + w x ∧ acc.isEmpty = false then acc :: greedy w limit xs [x] (w x)
    else greedy w limit xs (acc ++ [x]) (tok + w x)

/-- Render one sub-block of `_split_vtt_block` from its entry group. -/
def mkSubBlock (parent : ℕ) (subn : ℕ) (cur : List VTTEntry) : TimeBlock :=
  { block_number := .str (toString parent ++ "." ++ toString subn)
    start_time :=
      seconds_to_time_string (cur.headD default).start_seconds ++
        " (part " ++ toString subn ++ ")"
    end_time :=
      seconds_to_time_string (cur.getLastD default).end_seconds ++
        " (part " ++ toString subn ++ ")"
    content := String.intercalate " " (cur.map entryText) }

/-- The loop body of `TranscriptionChunker._split_vtt_block`. -/
def splitVttGo (count : String → ℕ) (parent : ℕ) :
    List VTTEntry → List VTTEntry → ℕ → ℕ → List TimeBlock
  | [], cur, _, subn => if cur.isEmpty then [] else [mkSubBlock parent subn cur]
  | e :: es, cur, tok, subn =>
    if MAX_TOKENS_PER_CHUNK < tok + count (entryText e) ∧ cur.isEmpty = false then
      mkSubBlock parent subn cur ::
        splitVttGo count parent es [e] (count (entryText e)) (subn + 1)
    else splitVttGo count parent es (cur ++ [e]) (tok + count (entryText e)) subn

/-- `TranscriptionChunker._split_vtt_block`: split a VTT block whose content
exceeds the token budget into sub-blocks numbered `{parent}.{1,2,...}`,
never splitting a single entry's text. -/
def split_vtt_block (count : String → ℕ) (block_info : BlockInfo) : List TimeBlock :=
  splitVttGo count block_info.block_number block_info.entries [] 0 1

/-- The entry groups `_split_vtt_block` packs greedily (each group becomes
one sub-block, in order). -/
def splitGroups (count : String → ℕ) (block_info : BlockInfo) : List (List VTTEntry) :=
  greedy (fun e => count (entryText e)) MAX_TOKENS_PER_CHUNK block_info.entries [] 0

/-- Python `content.split("\n")`. -/
def pySplitLines (content : String) : List String :=
  (pySplit '\n' content.data []).map String.mk

/-- Render one block of `create_fallback_blocks` from its line group. -/
def mkFallbackBlock (block_number : ℕ) (cur : List String) : TimeBlock :=
  { block_number := .nat block_number
    start_time := "Block " ++ toString block_number ++ " Start"
    end_time := "Block " ++ toString block_number ++ " End"
    content := String.intercalate "\n" cur }

/-- The loop body of `TranscriptionChunker.create_fallback_blocks`. -/
def fallbackGo (count : String → ℕ) :
    List String → List String → ℕ → ℕ → List TimeBlock
  | [], cur, _, bn => if cur.isEmpty then [] else [mkFallbackBlock bn cur]
  | l :: ls, cur, tok, bn =>
    if MAX_TOKENS_PER_CHUNK < tok + count l ∧ cur.isEmpty = false then
      mkFallbackBlock bn cur :: fallbackGo count ls [l] (count l) (bn + 1)
    else fallbackGo count ls (cur ++ [l]) (tok + count l) bn

/-- `TranscriptionChunker.create_fallback_blocks`: content-only chunking by
lines under the token budget, labelled positionally. -/
def create_fallback_blocks (count : String → ℕ) (content : String) : List TimeBlock :=
  fallbackGo count (pySplitLines content) [] 0 1

/-- The line groups `create_fallback_blocks` packs greedily. -/
def fallbackGroups (count : String → ℕ) (content : String) : List (List String) :=
  greedy count MAX_TOKENS_PER_CHUNK (pySplitLines content) [] 0

/-- `TranscriptionChunker.chunk_from_vtt` (file reading aside): parse the
captions, group into `CHUNK_DURATION_MINUTES` blocks, keep blocks within the
budget as they are and split oversized ones. Any parse exception is caught
(`except Exception`) and an empty list is returned. -/
def chunk_from_vtt (count : String → ℕ) (captions : List RawCaption) : List TimeBlock :=
  match parse_vtt_captions captions with
  | .error _ => []
  | .ok vtt_entries =>
    if vtt_entries.isEmpty then []
    else
      (group_by_time_blocks vtt_entries CHUNK_DURATION_MINUTES).flatMap
        (fun block_info =>
          if count block_info.content ≤ MAX_TOKENS_PER_CHUNK then
            [{ block_number := .nat block_info.block_number
               start_time := block_info.start_time
               end_time := block_info.end_time
               content := block_info.content }]
          else split_vtt_block count block_info)

/-! ### Analyzer response parsing (`analyzer.py`) -/

/-- One criterion's result dict inside the model's JSON response; every
field may be missing. -/
structure CritResult where
  score : Option ℚ
  justification : Option String
  quotes : Option (List String)
deriving DecidableEq, Inhabited

/-- `LectureAnalyzer._parse_api_response`: iterate over the configured
rubric (so every rubric key appears exactly once, in rubric order); a
missing criterion defaults to score 3, the score is clamped to `[1, 5]` and
rounded to the nearest integer (Python `round`), and the traffic light is
looked up from the rounded score. -/
def parse_api_response (criteria_data : List (String × CritResult)) (block : TimeBlock) :
    BlockAnalysis :=
  let criterion_scores := EVALUATION_CRITERIA.map (fun ci =>
    let r := (criteria_data.lookup ci.1).getD { score := none, justification := none, quotes := none }
    let score : ℤ := pythonRound (max 1 (min 5 (r.score.getD 3)))
    { criterion_key := ci.1
      criterion_name_de := ci.2.name_de
      score := (score : ℚ)
      traffic_light := trafficLightsGet score
      justification := r.justification.getD "Keine Begründung verfügbar"
      quotes := r.quotes.getD [] })
  let total_score : ℚ := (criterion_scores.map (fun cs => cs.score)).sum
  let overall_score : ℚ :=
    if EVALUATION_CRITERIA.isEmpty then 0
    else total_score / (EVALUATION_CRITERIA.length : ℚ)
  { block_number := block.block_number
    time_range := block.start_time ++ "-" ++ block.end_time
    criteria_scores := criterion_scores
    overall_block_score := round1 overall_score }

/-! ### Aggregator (`aggregator.py`) -/

/-- `defaultdict(list)` in insertion order: append `vs` to the entry for
`k`, or add a new entry `(k, vs)` at the end. -/
def bump (m : List (String × List α)) (k : String) (vs : List α) : List (String × List α) :=
  match m with
  | [] => [(k, vs)]
  | (k0, ws) :: rest => if k0 = k then (k0, ws ++ vs) :: rest else (k0, ws) :: bump rest k vs

/-- `m.get(k, [])`. -/
def mget (m : List (String × List α)) (k : String) : List α := (m.lookup k).getD []

/-- One collection step: contribute `g cs` to the entry for the criterion's
key, skipping empty contributions (`if criterion_score.quotes:` /
`if criterion_score.justification:`; for scores the contribution
`[cs.score]` is never empty, so this is the unconditional append). -/
def bumpStep (g : CriterionScore → List α) (m : List (String × List α))
    (cs : CriterionScore) : List (String × List α) :=
  if (g cs).isEmpty then m else bump m cs.criterion_key (g cs)

/-- `criterion_totals`: every block's score per criterion key, in block order. -/
def collectTotals (block_analyses : List BlockAnalysis) : List (String × List ℚ) :=
  block_analyses.foldl
    (fun m b => b.criteria_scores.foldl (bumpStep (fun cs => [cs.score])) m) []

/-- `criterion_quotes`: nonempty quote lists extended per criterion key. -/
def collectQuotes (block_analyses : List BlockAnalysis) : List (String × List String) :=
  block_analyses.foldl
    (fun m b => b.criteria_scores.foldl (bumpStep (fun cs => cs.quotes)) m) []

/-- `criterion_justifications`: nonempty justifications appended per key. -/
def collectJusts (block_analyses : List BlockAnalysis) : List (String × List String) :=
  block_analyses.foldl
    (fun m b => b.criteria_scores.foldl
      (bumpStep (fun cs => if cs.justification = "" then [] else [cs.justification])) m) []

/-- The scores collected for key `k`, in block emission order (specification
of `mget (collectTotals blocks) k`). -/
def collectedScores (k : String) (block_analyses : List BlockAnalysis) : List ℚ :=
  block_analyses.flatMap (fun b =>
    b.criteria_scores.flatMap (fun cs => if cs.criterion_key = k then [cs.score] else []))

/-- The quotes collected for key `k`, in block emission order. -/
def collectedQuotes (k : String) (block_analyses : List BlockAnalysis) : List String :=
  block_analyses.flatMap (fun b =>
    b.criteria_scores.flatMap (fun cs => if cs.criterion_key = k then cs.quotes else []))

/-- The nonempty justifications collected for key `k`, in block order. -/
def collectedJusts (k : String) (block_analyses : List BlockAnalysis) : List String :=
  block_analyses.flatMap (fun b =>
    b.criteria_scores.flatMap (fun cs =>
      if cs.criterion_key = k ∧ cs.justification ≠ "" then [cs.justification] else []))

/-- `criterion_order.index(key) if key in criterion_order else 999`,
the sort key of `_aggregate_criterion_scores`. -/
def criterionRank (k : String) : ℕ :=
  if k ∈ rubricKeys then rubricKeys.indexOf k else 999

/-- The sort relation: ascending `criterionRank` of the criterion key. -/
def aggRel (a b : CriterionScore) : Prop :=
  criterionRank a.criterion_key ≤ criterionRank b.criterion_key

instance : DecidableRel aggRel := fun _ _ => Nat.decLe _ _

instance : IsTotal CriterionScore aggRel := ⟨fun _ _ => Nat.le_total _ _⟩

instance : IsTrans CriterionScore aggRel := ⟨fun _ _ _ => Nat.le_trans⟩

/-- The consolidated `CriterionScore` built for one criterion key from its
collected scores, quotes and justifications. -/
def consolidateOne (reasoning : String → String → ℚ → List String → List String → String)
    (block_analyses : List BlockAnalysis) (k : String) (scores : List ℚ) : CriterionScore :=
  let rounded_score := round1 (mean scores)
  let criterion_name := ((EVALUATION_CRITERIA.lookup k).map (fun ci => ci.name_de)).getD k
  let traffic_light := trafficLightsGet (pythonRound rounded_score)
  let all_justifications := mget (collectJusts block_analyses) k
  let all_quotes := mget (collectQuotes block_analyses) k
  let justification := reasoning k criterion_name rounded_score all_justifications all_quotes
  let selected_quotes :=
    if rounded_score ≤ 3 then all_quotes.take 2
    else if all_quotes.isEmpty then [] else all_quotes.take 1
  { criterion_key := k
    criterion_name_de := criterion_name
    score := rounded_score
    traffic_light := traffic_light
    justification := justification
    quotes := selected_quotes }

/-- `ScoreAggregator._aggregate_criterion_scores`: consolidate each
collected criterion (skipping keys with no scores), then sort by rubric
order with unknown keys ranked 999. -/
def aggregate_criterion_scores
    (reasoning : String → String → ℚ → List String → List String → String)
    (block_analyses : List BlockAnalysis) : List CriterionScore :=
  List.insertionSort aggRel
    ((collectTotals block_analyses).filterMap (fun p =>
      if p.2.isEmpty then none else some (consolidateOne reasoning block_analyses p.1 p.2)))

/-- `ScoreAggregator._create_empty_analysis`. -/
def create_empty_analysis : AggregatedAnalysis :=
  { overall_score := 0
    criteria_scores := []
    raw_analysis := none
    strengths := ["Keine Analyse möglich - keine Daten verfügbar"]
    improvement_suggestions := ["Transkript prüfen und erneut analysieren"]
    management_summary :=
      { markdown := none
        bullets := some ["Keine verwertbaren Daten verfügbar"]
        detailed := some "Es konnten keine verwertbaren Daten aus dem Transkript extrahiert werden." } }

/-- `ScoreAggregator.aggregate_scores`: empty input returns the empty
analysis; otherwise the overall score divides by the number of aggregated
criteria — Python raises `ZeroDivisionError` when that number is zero,
modelled as `.error`. -/
def aggregate_scores (stubs : LlmStubs) (block_analyses : List BlockAnalysis) :
    Except String AggregatedAnalysis :=
  if block_analyses.isEmpty then .ok create_empty_analysis
  else
    let aggregated_criteria := aggregate_criterion_scores stubs.reasoning block_analyses
    if aggregated_criteria.isEmpty then .error "ZeroDivisionError: division by zero"
    else
      let overall_score :=
        round1 ((aggregated_criteria.map (fun cs => cs.score)).sum /
          (aggregated_criteria.length : ℚ))
      .ok
        { overall_score := overall_score
          criteria_scores := aggregated_criteria
          raw_analysis := some (stubs.consolidate block_analyses)
          strengths := []
          improvement_suggestions := []
          management_summary :=
            { markdown := some (stubs.mgmt overall_score aggregated_criteria block_analyses)
              bullets := none
              detailed := none } }

/-! ### Lemmas about the greedy accumulation -/

theorem greedy_join (w : α → ℕ) (limit : ℕ) :
    ∀ (xs acc : List α) (tok : ℕ), (greedy w limit xs acc tok).flatten = acc ++ xs := by
  intro xs
  induction xs with
  | nil =>
    intro acc tok
    cases acc <;> simp [greedy]
  | cons x xs ih =>
    intro acc tok
    by_cases h : limit < tok + w x ∧ acc.isEmpty = false
    · rw [greedy, if_pos h]
      simp [ih]
    · rw [greedy, if_neg h, ih]
      simp

theorem greedy_group_ne_nil (w : α → ℕ) (limit : ℕ) :
    ∀ (xs acc : List α) (tok : ℕ) (g : List α),
      g ∈ greedy w limit xs acc tok → g ≠ [] := by
  intro xs
  induction xs with
  | nil =>
    intro acc tok g hg
    rw [greedy] at hg
    by_cases h : acc.isEmpty = true
    · rw [if_pos h] at hg
      simp at hg
    · rw [if_neg h] at hg
      have hg' : g = acc := by simpa using hg
      subst hg'
      intro hnil
      exact h (by simp [hnil])
  | cons x xs ih =>
    intro acc tok g hg
    by_cases h : limit < tok + w x ∧ acc.isEmpty = false
    · rw [greedy, if_pos h] at hg
      rcases List.mem_cons.mp hg with rfl | hg
      · intro hnil
        rw [hnil] at h
        simp at h
      · exact ih _ _ _ hg
    · rw [greedy, if_neg h] at hg
      exact ih _ _ _ hg

theorem greedy_budget (w : α → ℕ) (limit : ℕ) :
    ∀ (xs acc : List α) (tok : ℕ),
      tok = (acc.map w).sum →
      ((acc.map w).sum ≤ limit ∨ ∃ a, acc = [a] ∧ limit < w a) →
      ∀ g ∈ greedy w limit xs acc tok,
        (g.map w).sum ≤ limit ∨ ∃ a, g = [a] ∧ limit < w a := by
  intro xs
  induction xs with
  | nil =>
    intro acc tok _ hinv g hg
    rw [greedy] at hg
    by_cases h : acc.isEmpty = true
    · rw [if_pos h] at hg
      simp at hg
    · rw [if_neg h] at hg
      have hg' : g = acc := by simpa using hg
      subst hg'
      exact hinv
  | cons x xs ih =>
    intro acc tok htok hinv g hg
    by_cases h : limit < tok + w x ∧ acc.isEmpty = false
    · rw [greedy, if_pos h] at hg
      rcases List.mem_cons.mp hg with rfl | hg
      · exact hinv
      · refine ih [x] (w x) (by simp) ?_ g hg
        by_cases hx : w x ≤ limit
        · left; simpa using hx
        · right; exact ⟨x, rfl, Nat.lt_of_not_le hx⟩
    · rw [greedy, if_neg h] at hg
      rcases Decidable.not_and_iff_or_not.mp h with h1 | h2
      · have hle : tok + w x ≤ limit := Nat.le_of_not_lt h1
        refine ih (acc ++ [x]) (tok + w x) (by simp [htok]) ?_ g hg
        left
        simpa [htok] using hle
      · have hacc : acc = [] := by
          rcases acc with _ | _
          · rfl
          · simp at h2
        subst hacc
        have htok0 : tok = 0 := by simpa using htok
        subst htok0
        refine ih ([] ++ [x]) (0 + w x) (by simp) ?_ g hg
        by_cases hx : w x ≤ limit
        · left; simpa using hx
        · right; exact ⟨x, by simp, Nat.lt_of_not_le hx⟩

theorem greedy_oversized_head (w : α → ℕ) (limit : ℕ) :
    ∀ (xs acc : List α) (tok : ℕ), limit < tok → acc.isEmpty = false →
      ∃ gs, greedy w limit xs acc tok = acc :: gs := by
  intro xs
  cases xs with
  | nil =>
    intro acc tok _ hacc
    exact ⟨[], by simp [greedy, hacc]⟩
  | cons x xs =>
    intro acc tok htok hacc
    have h : limit < tok + w x ∧ acc.isEmpty = false :=
      ⟨Nat.lt_of_lt_of_le htok (Nat.le_add_right _ _), hacc⟩
    exact ⟨_, by rw [greedy, if_pos h]⟩

theorem greedy_oversized_mem (w : α → ℕ) (limit : ℕ) :
    ∀ (xs acc : List α) (tok : ℕ) (e : α), e ∈ xs → limit < w e →
      tok = (acc.map w).sum → [e] ∈ greedy w limit xs acc tok := by
  intro xs
  induction xs with
  | nil =>
    intro acc tok e he
    simp at he
  | cons x xs ih =>
    intro acc tok e he hbig htok
    rcases List.mem_cons.mp he with rfl | he
    · by_cases h : limit < tok + w e ∧ acc.isEmpty = false
      · rw [greedy, if_pos h]
        obtain ⟨gs, hgs⟩ :=
          greedy_oversized_head w limit xs [e] (w e) hbig (by simp)
        rw [hgs]
        simp
      · rw [greedy, if_neg h]
        have h1 : limit < tok + w e := Nat.lt_of_lt_of_le hbig (Nat.le_add_left _ _)
        have hacc : acc = [] := by
          rcases Decidable.not_and_iff_or_not.mp h with h' | h'
          · exact absurd h1 h'
          · rcases acc with _ | _
            · rfl
            · simp at h'
        subst hacc
        simp at htok
        subst htok
        obtain ⟨gs, hgs⟩ :=
          greedy_oversized_head w limit xs ([] ++ [e]) (0 + w e) (by simpa using hbig) (by simp)
        rw [hgs]
        simp
    · by_cases h : limit < tok + w x ∧ acc.isEmpty = false
      · rw [greedy, if_pos h]
        exact List.mem_cons_of_mem _ (ih [x] (w x) e he hbig (by simp))
      · rw [greedy, if_neg h]
        exact ih (acc ++ [x]) (tok + w x) e he hbig (by simp [htok])

/-! ### The splitting loops as renderings of the greedy groups -/

/-- Render the greedy groups of `_split_vtt_block` starting at sub-number
`subn`. -/
def renderSubFrom (parent : ℕ) : ℕ → List (List VTTEntry) → List TimeBlock
  | _, [] => []
  | subn, g :: gs => mkSubBlock parent subn g :: renderSubFrom parent (subn + 1) gs

/-- Render the greedy groups of `create_fallback_blocks` starting at block
number `bn`. -/
def renderFallbackFrom : ℕ → List (List String) → List TimeBlock
  | _, [] => []
  | bn, g :: gs => mkFallbackBlock bn g :: renderFallbackFrom (bn + 1) gs

theorem splitVttGo_eq_render (count : String → ℕ) (parent : ℕ) :
    ∀ (es cur : List VTTEntry) (tok subn : ℕ),
      splitVttGo count parent es cur tok subn =
        renderSubFrom parent subn
          (greedy (fun e => count (entryText e)) MAX_TOKENS_PER_CHUNK es cur tok) := by
  intro es
  induction es with
  | nil =>
    intro cur tok subn
    by_cases h : cur.isEmpty = true
    · simp [splitVttGo, greedy, h, renderSubFrom]
    · simp [splitVttGo, greedy, Bool.not_eq_true _ ▸ h, renderSubFrom]
  | cons e es ih =>
    intro cur tok subn
    by_cases h : MAX_TOKENS_PER_CHUNK < tok + count (entryText e) ∧ cur.isEmpty = false
    · rw [splitVttGo, if_pos h, greedy, if_pos h, renderSubFrom, ih]
    · rw [splitVttGo, if_neg h, greedy, if_neg h, ih]

theorem fallbackGo_eq_render (count : String → ℕ) :
    ∀ (ls cur : List String) (tok bn : ℕ),
      fallbackGo count ls cur tok bn =
        renderFallbackFrom bn (greedy count MAX_TOKENS_PER_CHUNK ls cur tok) := by
  intro ls
  induction ls with
  | nil =>
    intro cur tok bn
    by_cases h : cur.isEmpty = true
    · simp [fallbackGo, greedy, h, renderFallbackFrom]
    · simp [fallbackGo, greedy, Bool.not_eq_true _ ▸ h, renderFallbackFrom]
  | cons l ls ih =>
    intro cur tok bn
    by_cases h : MAX_TOKENS_PER_CHUNK < tok + count l ∧ cur.isEmpty = false
    · rw [fallbackGo, if_pos h, greedy, if_pos h, renderFallbackFrom, ih]
    · rw [fallbackGo, if_neg h, greedy, if_neg h, ih]

theorem mem_renderSubFrom {parent : ℕ} :
    ∀ {gs : List (List VTTEntry)} {subn : ℕ} {tb : TimeBlock},
      tb ∈ renderSubFrom parent subn gs → ∃ n g, g ∈ gs ∧ tb = mkSubBlock parent n g := by
  intro gs
  induction gs with
  | nil => intro subn tb h; simp [renderSubFrom] at h
  | cons g gs ih =>
    intro subn tb h
    rw [renderSubFrom] at h
    rcases List.mem_cons.mp h with rfl | h
    · exact ⟨subn, g, List.mem_cons_self _ _, rfl⟩
    · obtain ⟨n, g', hg', rfl⟩ := ih h
      exact ⟨n, g', List.mem_cons_of_mem _ hg', rfl⟩

theorem mem_renderFallbackFrom :
    ∀ {gs : List (List String)} {bn : ℕ} {tb : TimeBlock},
      tb ∈ renderFallbackFrom bn gs → ∃ n g, g ∈ gs ∧ tb = mkFallbackBlock n g := by
  intro gs
  induction gs with
  | nil => intro bn tb h; simp [renderFallbackFrom] at h
  | cons g gs ih =>
    intro bn tb h
    rw [renderFallbackFrom] at h
    rcases List.mem_cons.mp h with rfl | h
    · exact ⟨bn, g, List.mem_cons_self _ _, rfl⟩
    · obtain ⟨n, g', hg', rfl⟩ := ih h
      exact ⟨n, g', List.mem_cons_of_mem _ hg', rfl⟩

theorem renderSubFrom_mem_of_group {parent : ℕ} :
    ∀ {gs : List (List VTTEntry)} {g : List VTTEntry} (subn : ℕ), g ∈ gs →
      ∃ n, mkSubBlock parent n g ∈ renderSubFrom parent subn gs := by
  intro gs
  induction gs with
  | nil => intro g subn h; simp at h
  | cons g' gs ih =>
    intro g subn h
    rcases List.mem_cons.mp h with rfl | h
    · exact ⟨subn, by rw [renderSubFrom]; exact List.mem_cons_self _ _⟩
    · obtain ⟨n, hn⟩ := ih (subn + 1) h
      exact ⟨n, by rw [renderSubFrom]; exact List.mem_cons_of_mem _ hn⟩

theorem renderSubFrom_map_content (parent : ℕ) :
    ∀ (gs : List (List VTTEntry)) (subn : ℕ),
      (renderSubFrom parent subn gs).map (fun tb => tb.content) =
        gs.map (fun g => String.intercalate " " (g.map entryText)) := by
  intro gs
  induction gs with
  | nil => intro subn; simp [renderSubFrom]
  | cons g gs ih => intro subn; simp [renderSubFrom, mkSubBlock, ih]

theorem intercalate_singleton (sep : String) (a : String) :
    String.intercalate sep [a] = a := by
  simp [String.intercalate, String.intercalate.go]

/-- C2: token budget. For any token counter that is subadditive over
separator-joined parts, every sub-block emitted by `_split_vtt_block` and
every block emitted by `create_fallback_blocks` has content within
`MAX_TOKENS_PER_CHUNK = 15000` tokens, except a block consisting of a
single entry (respectively a single line) whose own text already exceeds
the budget. -/
theorem c2_token_budget (count : String → ℕ)
    (hsub : ∀ (sep : String) (parts : List String), parts ≠ [] →
      count (String.intercalate sep parts) ≤ (parts.map count).sum) :
    (∀ (b : BlockInfo) (tb : TimeBlock), tb ∈ split_vtt_block count b →
      count tb.content ≤ MAX_TOKENS_PER_CHUNK ∨
      ∃ e, e ∈ b.entries ∧ tb.content = entryText e ∧
        MAX_TOKENS_PER_CHUNK < count (entryText e)) ∧
    (∀ (content : String) (tb : TimeBlock), tb ∈ create_fallback_blocks count content →
      count tb.content ≤ MAX_TOKENS_PER_CHUNK ∨
      ∃ l, l ∈ pySplitLines content ∧ tb.content = l ∧
        MAX_TOKENS_PER_CHUNK < count l) := by
  constructor
  · intro b tb htb
    rw [split_vtt_block, splitVttGo_eq_render] at htb
    obtain ⟨n, g, hg, rfl⟩ := mem_renderSubFrom htb
    have hcontent : (mkSubBlock b.block_number n g).content =
        String.intercalate " " (g.map entryText) := rfl
    have hne : g ≠ [] := greedy_group_ne_nil _ _ _ _ _ g hg
    have hb := greedy_budget (fun e => count (entryText e)) MAX_TOKENS_PER_CHUNK
      b.entries [] 0 (by simp) (by simp) g hg
    rcases hb with hle | ⟨a, rfl, ha⟩
    · left
      rw [hcontent]
      calc count (String.intercalate " " (g.map entryText))
          ≤ ((g.map entryText).map count).sum :=
            hsub " " (g.map entryText) (by simpa using hne)
        _ ≤ MAX_TOKENS_PER_CHUNK := by
            rw [List.map_map]
            exact hle
    · right
      refine ⟨a, ?_, ?_, ha⟩
      · have : a ∈ (greedy (fun e => count (entryText e)) MAX_TOKENS_PER_CHUNK
            b.entries [] 0).flatten :=
          List.mem_flatten.mpr ⟨[a], hg, List.mem_singleton_self a⟩
        rwa [greedy_join, List.nil_append] at this
      · rw [hcontent]
        simp [intercalate_singleton]
  · intro content tb htb
    rw [create_fallback_blocks, fallbackGo_eq_render] at htb
    obtain ⟨n, g, hg, rfl⟩ := mem_renderFallbackFrom htb
    have hcontent : (mkFallbackBlock n g).content = String.intercalate "\n" g := rfl
    have hne : g ≠ [] := greedy_group_ne_nil _ _ _ _ _ g hg
    have hb := greedy_budget count MAX_TOKENS_PER_CHUNK
      (pySplitLines content) [] 0 (by simp) (by simp) g hg
    rcases hb with hle | ⟨a, rfl, ha⟩
    · left
      rw [hcontent]
      exact le_trans (hsub "\n" g hne) hle
    · right
      refine ⟨a, ?_, ?_, ha⟩
      · have : a ∈ (greedy count MAX_TOKENS_PER_CHUNK (pySplitLines content) [] 0).flatten :=
          List.mem_flatten.mpr ⟨[a], hg, List.mem_singleton_self a⟩
        rwa [greedy_join, List.nil_append] at this
      · rw [hcontent, intercalate_singleton]

/-- C2 witness: the budget theorem applied to the concrete (subadditive)
token counter that assigns 0 tokens to every string. -/
theorem c2_token_budget_witness :
    (∀ (b : BlockInfo) (tb : TimeBlock), tb ∈ split_vtt_block (fun _ => 0) b →
      (fun (_ : String) => 0) tb.content ≤ MAX_TOKENS_PER_CHUNK ∨
      ∃ e, e ∈ b.entries ∧ tb.content = entryText e ∧
        MAX_TOKENS_PER_CHUNK < (fun (_ : String) => 0) (entryText e)) ∧
    (∀ (content : String) (tb : TimeBlock), tb ∈ create_fallback_blocks (fun _ => 0) content →
      (fun (_ : String) => 0) tb.content ≤ MAX_TOKENS_PER_CHUNK ∨
      ∃ l, l ∈ pySplitLines content ∧ tb.content = l ∧
        MAX_TOKENS_PER_CHUNK < (fun (_ : String) => 0) l) :=
  c2_token_budget (fun _ => 0) (fun _ _ _ => Nat.zero_le _)

/-- C5: an entry whose own text exceeds the budget is emitted by
`_split_vtt_block` as its own sub-block (whose content is exactly that
entry's text), and no entry is ever fractured: the greedy groups
concatenate back to the block's entry list and every sub-block's content is
the space-join of whole entry texts. -/
theorem c5_oversized_entry (count : String → ℕ) (b : BlockInfo) (e : VTTEntry)
    (he : e ∈ b.entries) (hbig : MAX_TOKENS_PER_CHUNK < count (entryText e)) :
    (∃ tb, tb ∈ split_vtt_block count b ∧ tb.content = entryText e) ∧
    (splitGroups count b).flatten = b.entries ∧
    (split_vtt_block count b).map (fun tb => tb.content) =
      (splitGroups count b).map (fun g => String.intercalate " " (g.map entryText)) := by
  refine ⟨?_, ?_, ?_⟩
  · have hmem : [e] ∈ splitGroups count b :=
      greedy_oversized_mem _ _ b.entries [] 0 e he hbig (by simp)
    obtain ⟨n, hn⟩ := @renderSubFrom_mem_of_group b.block_number _ _ 1 hmem
    refine ⟨mkSubBlock b.block_number n [e], ?_, ?_⟩
    · rw [split_vtt_block, splitVttGo_eq_render]
      exact hn
    · show String.intercalate " " ([e].map entryText) = entryText e
      simp [intercalate_singleton]
  · rw [splitGroups, greedy_join, List.nil_append]
  · rw [split_vtt_block, splitVttGo_eq_render, renderSubFrom_map_content, splitGroups]

/-- A one-entry block whose text is oversized for the witness of C5. -/
def eBig : VTTEntry :=
  { start_seconds := 0, end_seconds := 10, text := "x", speaker := none }

/-- A `block_info` holding just `eBig`. -/
def bBig : BlockInfo :=
  { block_number := 1, start_time := "00:00", end_time := "00:30",
    start_seconds := 0, end_seconds := 1800, content := "x",
    entry_count := 1, entries := [eBig] }

/-- C5 witness: with a counter that reports 20000 tokens for every string
(so the single entry of `bBig` tokenizes to `20000 > 15000`), the entry is
emitted unsplit as its own sub-block. -/
theorem c5_oversized_entry_witness :
    (∃ tb, tb ∈ split_vtt_block (fun _ => 20000) bBig ∧ tb.content = entryText eBig) ∧
    (splitGroups (fun _ => 20000) bBig).flatten = bBig.entries ∧
    (split_vtt_block (fun _ => 20000) bBig).map (fun tb => tb.content) =
      (splitGroups (fun _ => 20000) bBig).map
        (fun g => String.intercalate " " (g.map entryText)) :=
  c5_oversized_entry (fun _ => 20000) bBig eBig (by simp [bBig])
    (by norm_num [MAX_TOKENS_PER_CHUNK])

/-- C6: aggregating zero block analyses returns (without any exception) the
empty analysis: overall score `0.0`, empty criteria list, and the explicit
no-data markers. -/
theorem c6_empty_input (stubs : LlmStubs) :
    aggregate_scores stubs [] = .ok create_empty_analysis ∧
    create_empty_analysis.overall_score = 0 ∧
    create_empty_analysis.criteria_scores = [] ∧
    create_empty_analysis.management_summary.bullets =
      some ["Keine verwertbaren Daten verfügbar"] ∧
    create_empty_analysis.strengths = ["Keine Analyse möglich - keine Daten verfügbar"] := by
  refine ⟨?_, rfl, rfl, rfl, rfl⟩
  rw [aggregate_scores]
  simp

/-- Folding blocks with no criterion scores collects nothing. -/
theorem collectTotals_of_empty_criteria :
    ∀ (blocks : List BlockAnalysis), (∀ b ∈ blocks, b.criteria_scores = []) →
      collectTotals blocks = [] := by
  have aux : ∀ (blocks : List BlockAnalysis) (m : List (String × List ℚ)),
      (∀ b ∈ blocks, b.criteria_scores = []) →
      blocks.foldl
        (fun m b => b.criteria_scores.foldl (bumpStep (fun cs => [cs.score])) m) m = m := by
    intro blocks
    induction blocks with
    | nil => intro m _; rfl
    | cons b blocks ih =>
      intro m h
      rw [List.foldl_cons, h b (List.mem_cons_self _ _)]
      exact ih m (fun b' hb' => h b' (List.mem_cons_of_mem _ hb'))
  intro blocks h
  exact aux blocks [] h

/-- C10: on a nonempty list of block analyses none of which holds any
criterion score, `aggregate_scores` divides by `len(aggregated_criteria) = 0`
and raises `ZeroDivisionError` — the division is only safe when at least
one criterion score exists across the input blocks. -/
theorem c10_zero_division (stubs : LlmStubs) (blocks : List BlockAnalysis)
    (hne : blocks ≠ []) (hempty : ∀ b ∈ blocks, b.criteria_scores = []) :
    aggregate_scores stubs blocks = .error "ZeroDivisionError: division by zero" := by
  have htot : collectTotals blocks = [] := collectTotals_of_empty_criteria blocks hempty
  have hagg : aggregate_criterion_scores stubs.reasoning blocks = [] := by
    rw [aggregate_criterion_scores, htot]
    rfl
  rw [aggregate_scores]
  simp [hne, hagg]

/-- A block analysis carrying no criterion scores at all. -/
def baNoCriteria : BlockAnalysis :=
  { block_number := .nat 1, time_range := "00:00-00:30",
    criteria_scores := [], overall_block_score := 0 }

/-- Concrete stubs for the three OpenAI collaborators. -/
def stubs0 : LlmStubs :=
  { reasoning := fun _ _ _ _ _ => "", consolidate := fun _ => "", mgmt := fun _ _ _ => "" }

/-- C10 witness: a single block analysis with an empty criteria list makes
`aggregate_scores` raise the division error. -/
theorem c10_zero_division_witness :
    aggregate_scores stubs0 [baNoCriteria] = .error "ZeroDivisionError: division by zero" :=
  c10_zero_division stubs0 [baNoCriteria] (by simp)
    (by intro b hb; rw [List.mem_singleton.mp hb]; rfl)

/-! ### Lemmas about the insertion-ordered maps -/

theorem mget_bump_self (m : List (String × List α)) (k : String) (vs : List α) :
    mget (bump m k vs) k = mget m k ++ vs := by
  induction m with
  | nil => simp [bump, mget, List.lookup]
  | cons q m ih =>
    obtain ⟨k0, ws⟩ := q
    by_cases h : k0 = k
    · subst h
      simp [bump, mget, List.lookup]
    · rw [bump]
      simp only [if_neg h]
      have hne : (k == k0) = false := by
        simp [Ne.symm h]
      simp only [mget, List.lookup, hne]
      exact ih

theorem mget_bump_ne (m : List (String × List α)) (k k' : String) (vs : List α)
    (h : k' ≠ k) : mget (bump m k vs) k' = mget m k' := by
  induction m with
  | nil =>
    have hne : (k' == k) = false := by simp [h]
    simp [bump, mget, List.lookup, hne]
  | cons q m ih =>
    obtain ⟨k0, ws⟩ := q
    by_cases h0 : k0 = k
    · subst h0
      have hne : (k' == k0) = false := by simp [h]
      simp [bump, mget, List.lookup, hne]
    · rw [bump]
      simp only [if_neg h0]
      by_cases h1 : k' = k0
      · subst h1
        simp [mget, List.lookup]
      · have hne : (k' == k0) = false := by simp [h1]
        simp only [mget, List.lookup, hne]
        exact ih

theorem keys_bump (m : List (String × List α)) (k : String) (vs : List α) :
    (bump m k vs).map Prod.fst =
      if k ∈ m.map Prod.fst then m.map Prod.fst else m.map Prod.fst ++ [k] := by
  induction m with
  | nil => simp [bump]
  | cons q m ih =>
    obtain ⟨k0, ws⟩ := q
    by_cases h : k0 = k
    · subst h
      simp [bump]
    · rw [bump]
      simp only [if_neg h]
      by_cases hmem : k ∈ m.map Prod.fst
      · simp [ih, hmem, Ne.symm h]
      · simp [ih, hmem, Ne.symm h]

theorem keys_nodup_bump (m : List (String × List α)) (k : String) (vs : List α)
    (h : (m.map Prod.fst).Nodup) : ((bump m k vs).map Prod.fst).Nodup := by
  rw [keys_bump]
  by_cases hmem : k ∈ m.map Prod.fst
  · simpa [hmem] using h
  · rw [if_neg hmem]
    have hperm : (m.map Prod.fst ++ [k]).Perm (k :: m.map Prod.fst) :=
      List.perm_append_singleton _ _
    rw [hperm.nodup_iff, List.nodup_cons]
    exact ⟨hmem, h⟩

theorem lookup_eq_of_mem_nodup (m : List (String × List α)) (p : String × List α)
    (hnd : (m.map Prod.fst).Nodup) (hp : p ∈ m) : m.lookup p.1 = some p.2 := by
  induction m with
  | nil => simp at hp
  | cons q m ih =>
    rcases List.mem_cons.mp hp with rfl | hp
    · simp [List.lookup]
    · have hne : p.1 ≠ q.1 := by
        intro h
        have : q.1 ∈ m.map Prod.fst := h ▸ List.mem_map_of_mem Prod.fst hp
        exact (List.nodup_cons.mp hnd).1 this
      have hbeq : (p.1 == q.1) = false := by simp [hne]
      simp [List.lookup, hbeq]
      exact ih (List.nodup_cons.mp hnd).2 hp

/-- One criteria list folded through `bumpStep g` contributes, per key, the
in-order concatenation of the `g`-contributions of the matching criteria. -/
theorem foldl_bumpStep_mget (g : CriterionScore → List α) :
    ∀ (cl : List CriterionScore) (m : List (String × List α)) (k : String),
      mget (cl.foldl (bumpStep g) m) k =
        mget m k ++ cl.flatMap (fun cs => if cs.criterion_key = k then g cs else []) := by
  intro cl
  induction cl with
  | nil => intro m k; simp
  | cons cs cl ih =>
    intro m k
    rw [List.foldl_cons, ih]
    by_cases hg : (g cs).isEmpty = true
    · have hnil : g cs = [] := by simpa [List.isEmpty_iff] using hg
      rw [bumpStep, if_pos hg]
      by_cases hk : cs.criterion_key = k <;> simp [hk, hnil]
    · rw [bumpStep, if_neg hg]
      by_cases hk : cs.criterion_key = k
      · rw [hk, mget_bump_self]
        simp [hk]
      · rw [mget_bump_ne _ _ _ _ (fun h => hk h.symm)]
        simp [hk]

/-- The blockwise fold behind `collectTotals`/`collectQuotes`/`collectJusts`. -/
def collectFold (g : CriterionScore → List α) (blocks : List BlockAnalysis) :
    List (String × List α) :=
  blocks.foldl (fun m b => b.criteria_scores.foldl (bumpStep g) m) []

theorem collectFold_mget (g : CriterionScore → List α) (blocks : List BlockAnalysis)
    (k : String) :
    mget (collectFold g blocks) k =
      blocks.flatMap (fun b =>
        b.criteria_scores.flatMap (fun cs => if cs.criterion_key = k then g cs else [])) := by
  have aux : ∀ (bs : List BlockAnalysis) (m : List (String × List α)),
      mget (bs.foldl (fun m b => b.criteria_scores.foldl (bumpStep g) m) m) k =
        mget m k ++ bs.flatMap (fun b =>
          b.criteria_scores.flatMap (fun cs => if cs.criterion_key = k then g cs else [])) := by
    intro bs
    induction bs with
    | nil => intro m; simp
    | cons b bs ih =>
      intro m
      rw [List.foldl_cons, ih, foldl_bumpStep_mget]
      simp
  simpa using aux blocks []

theorem keys_nodup_collectFold (g : CriterionScore → List α) (blocks : List BlockAnalysis) :
    ((collectFold g blocks).map Prod.fst).Nodup := by
  have auxcl : ∀ (cl : List CriterionScore) (m : List (String × List α)),
      (m.map Prod.fst).Nodup → ((cl.foldl (bumpStep g) m).map Prod.fst).Nodup := by
    intro cl
    induction cl with
    | nil => intro m h; exact h
    | cons cs cl ih =>
      intro m h
      rw [List.foldl_cons]
      refine ih _ ?_
      rw [bumpStep]
      by_cases hg : (g cs).isEmpty = true
      · rwa [if_pos hg]
      · rw [if_neg hg]
        exact keys_nodup_bump _ _ _ h
  have aux : ∀ (bs : List BlockAnalysis) (m : List (String × List α)),
      (m.map Prod.fst).Nodup →
      ((bs.foldl (fun m b => b.criteria_scores.foldl (bumpStep g) m) m).map Prod.fst).Nodup := by
    intro bs
    induction bs with
    | nil => intro m h; exact h
    | cons b bs ih =>
      intro m h
      rw [List.foldl_cons]
      exact ih _ (auxcl _ _ h)
  exact aux blocks [] (by simp)

theorem collectTotals_eq_fold (blocks : List BlockAnalysis) :
    collectTotals blocks = collectFold (fun cs => [cs.score]) blocks := rfl

theorem collectQuotes_eq_fold (blocks : List BlockAnalysis) :
    collectQuotes blocks = collectFold (fun cs => cs.quotes) blocks := rfl

theorem collectJusts_eq_fold (blocks : List BlockAnalysis) :
    collectJusts blocks =
      collectFold (fun cs => if cs.justification = "" then [] else [cs.justification])
        blocks := rfl

theorem mget_collectTotals (blocks : List BlockAnalysis) (k : String) :
    mget (collectTotals blocks) k = collectedScores k blocks := by
  rw [collectTotals_eq_fold, collectFold_mget, collectedScores]

theorem mget_collectQuotes (blocks : List BlockAnalysis) (k : String) :
    mget (collectQuotes blocks) k = collectedQuotes k blocks := by
  rw [collectQuotes_eq_fold, collectFold_mget, collectedQuotes]

theorem mget_collectJusts (blocks : List BlockAnalysis) (k : String) :
    mget (collectJusts blocks) k = collectedJusts k blocks := by
  rw [collectJusts_eq_fold, collectFold_mget, collectedJusts]
  congr 1
  funext b
  congr 1
  funext cs
  by_cases h1 : cs.criterion_key = k <;> by_cases h2 : cs.justification = "" <;>
    simp [h1, h2]

/-- Every consolidated criterion in the aggregator's output is exactly the
consolidation of the scores collected for its key (which are nonempty). -/
theorem mem_aggregate (r : String → String → ℚ → List String → List String → String)
    (blocks : List BlockAnalysis) (cs : CriterionScore)
    (hcs : cs ∈ aggregate_criterion_scores r blocks) :
    cs = consolidateOne r blocks cs.criterion_key (collectedScores cs.criterion_key blocks) ∧
    collectedScores cs.criterion_key blocks ≠ [] := by
  rw [aggregate_criterion_scores] at hcs
  have hcs' := (List.perm_insertionSort aggRel _).subset hcs
  obtain ⟨p, hp, hsome⟩ := List.mem_filterMap.mp hcs'
  by_cases he : p.2.isEmpty = true
  · rw [if_pos he] at hsome
    exact absurd hsome (by simp)
  · rw [if_neg he] at hsome
    have hcs'' : cs = consolidateOne r blocks p.1 p.2 := by
      have := Option.some.inj hsome
      exact this.symm
    have hkey : cs.criterion_key = p.1 := by rw [hcs'']; rfl
    have hnd : ((collectTotals blocks).map Prod.fst).Nodup := by
      rw [collectTotals_eq_fold]
      exact keys_nodup_collectFold _ _
    have hlook : (collectTotals blocks).lookup p.1 = some p.2 :=
      lookup_eq_of_mem_nodup _ p hnd hp
    have hp2 : p.2 = collectedScores p.1 blocks := by
      rw [← mget_collectTotals]
      rw [mget, hlook]
      rfl
    constructor
    · rw [hkey, ← hp2]
      exact hcs''
    · rw [hkey, ← hp2]
      simpa [List.isEmpty_iff] using he

theorem consolidateOne_key (r : String → String → ℚ → List String → List String → String)
    (blocks : List BlockAnalysis) (k : String) (scores : List ℚ) :
    (consolidateOne r blocks k scores).criterion_key = k := rfl

theorem consolidateOne_score (r : String → String → ℚ → List String → List String → String)
    (blocks : List BlockAnalysis) (k : String) (scores : List ℚ) :
    (consolidateOne r blocks k scores).score = round1 (mean scores) := rfl

theorem consolidateOne_traffic (r : String → String → ℚ → List String → List String → String)
    (blocks : List BlockAnalysis) (k : String) (scores : List ℚ) :
    (consolidateOne r blocks k scores).traffic_light =
      trafficLightsGet (pythonRound (round1 (mean scores))) := rfl

theorem consolidateOne_quotes (r : String → String → ℚ → List String → List String → String)
    (blocks : List BlockAnalysis) (k : String) (scores : List ℚ) :
    (consolidateOne r blocks k scores).quotes =
      if round1 (mean scores) ≤ 3 then (mget (collectQuotes blocks) k).take 2
      else if (mget (collectQuotes blocks) k).isEmpty = true then []
        else (mget (collectQuotes blocks) k).take 1 := rfl

/-- C3 (amended): every consolidated criterion's score is the one-decimal
rounded mean of its collected scores, and its traffic light is that score
rounded to the nearest integer by Python's `round` — ties to the EVEN
neighbour, not "ties up" as the specification states — mapped through the
fixed table; the mean of `[5,4,3]` is `4.0`, the mean of `[2,3]` is `2.5`,
and rounded scores 3, 4, 2 map to yellow, green, red. -/
theorem c3_traffic_light_rounding
    (r : String → String → ℚ → List String → List String → String)
    (blocks : List BlockAnalysis) (cs : CriterionScore)
    (hcs : cs ∈ aggregate_criterion_scores r blocks) :
    cs.score = round1 (mean (collectedScores cs.criterion_key blocks)) ∧
    cs.traffic_light =
      trafficLightsGet (pythonRound (round1 (mean (collectedScores cs.criterion_key blocks)))) ∧
    mean [5, 4, 3] = 4 ∧ mean [2, 3] = 5/2 ∧
    trafficLightsGet 3 = "🟡" ∧ trafficLightsGet 4 = "🟢" ∧ trafficLightsGet 2 = "🔴" := by
  obtain ⟨hcs', _⟩ := mem_aggregate r blocks cs hcs
  refine ⟨?_, ?_, ?_, ?_, rfl, rfl, rfl⟩
  · conv_lhs => rw [hcs']
    rw [consolidateOne_score]
  · conv_lhs => rw [hcs']
    rw [consolidateOne_traffic]
  · rw [mean]
    norm_num
  · rw [mean]
    norm_num

/-- C8: the consolidated quotes are a prefix of the quotes collected in
block emission order (no re-ranking): the first 2 of them when the rounded
average is at most 3, and at most the first 1 otherwise. -/
theorem c8_quote_selection
    (r : String → String → ℚ → List String → List String → String)
    (blocks : List BlockAnalysis) (cs : CriterionScore)
    (hcs : cs ∈ aggregate_criterion_scores r blocks) :
    cs.quotes =
      if round1 (mean (collectedScores cs.criterion_key blocks)) ≤ 3
      then (collectedQuotes cs.criterion_key blocks).take 2
      else (collectedQuotes cs.criterion_key blocks).take 1 := by
  obtain ⟨hcs', _⟩ := mem_aggregate r blocks cs hcs
  conv_lhs => rw [hcs']
  rw [consolidateOne_quotes, mget_collectQuotes]
  by_cases h : round1 (mean (collectedScores cs.criterion_key blocks)) ≤ 3
  · rw [if_pos h, if_pos h]
  · rw [if_neg h, if_neg h]
    by_cases he : (collectedQuotes cs.criterion_key blocks).isEmpty = true
    · rw [if_pos he]
      have : collectedQuotes cs.criterion_key blocks = [] := by
        simpa [List.isEmpty_iff] using he
      rw [this]
      rfl
    · rw [if_neg he]

/-- C9: the aggregator's output is sorted by the rubric's declaration order
(`criterionRank`), for any input; a key in the rubric ranks at its rubric
index (below 999) and a key outside the rubric ranks 999, hence after every
rubric key. -/
theorem c9_output_order
    (r : String → String → ℚ → List String → List String → String)
    (blocks : List BlockAnalysis) :
    List.Sorted aggRel (aggregate_criterion_scores r blocks) ∧
    (∀ k ∈ rubricKeys, criterionRank k = rubricKeys.indexOf k ∧ criterionRank k < 999) ∧
    (∀ k, k ∉ rubricKeys → criterionRank k = 999) ∧
    rubricKeys.length = 10 := by
  refine ⟨?_, ?_, ?_, rfl⟩
  · rw [aggregate_criterion_scores]
    exact List.sorted_insertionSort aggRel _
  · intro k hk
    refine ⟨by rw [criterionRank, if_pos hk], ?_⟩
    rw [criterionRank, if_pos hk]
    have h1 : rubricKeys.indexOf k < rubricKeys.length := List.indexOf_lt_length.mpr hk
    have h2 : rubricKeys.length = 10 := rfl
    omega
  · intro k hk
    rw [criterionRank, if_neg hk]

/-! ### Concrete aggregator runs (used by witnesses and counterexamples) -/

/-- A per-block criterion result: score 2 with three quotes. -/
def csIn : CriterionScore :=
  { criterion_key := "struktur_klarheit", criterion_name_de := "Struktur & Klarheit",
    score := 2, traffic_light := "🟡", justification := "j",
    quotes := ["q1", "q2", "q3"] }

/-- A single block analysis holding `csIn`. -/
def baW : BlockAnalysis :=
  { block_number := .nat 1, time_range := "00:00-00:30",
    criteria_scores := [csIn], overall_block_score := 2 }

/-- The consolidated criterion `aggregate_criterion_scores` produces from
`[baW]`: score 2, red light, the first two quotes. -/
def csW : CriterionScore :=
  { criterion_key := "struktur_klarheit", criterion_name_de := "Struktur & Klarheit",
    score := 2, traffic_light := "🔴", justification := "",
    quotes := ["q1", "q2"] }

theorem aggW_eval : aggregate_criterion_scores stubs0.reasoning [baW] = [csW] := by
  have hr : round1 ((2 : ℚ)) = 2 := by
    rw [round1, pythonRound]
    norm_num
  have hp : pythonRound (2 : ℚ) = 2 := by
    rw [pythonRound]
    norm_num
  norm_num [aggregate_criterion_scores, collectTotals, collectQuotes, collectJusts,
    bumpStep, bump, baW, csIn, csW, consolidateOne, mget, List.lookup, mean,
    trafficLightsGet, TRAFFIC_LIGHTS, EVALUATION_CRITERIA, stubs0,
    List.insertionSort, List.orderedInsert, hr, hp]
  decide

/-- C3 witness: the rounding/traffic-light theorem applied to the concrete
one-block run `[baW]` whose consolidated criterion is `csW`. -/
theorem c3_traffic_light_rounding_witness :
    csW.score = round1 (mean (collectedScores csW.criterion_key [baW])) ∧
    csW.traffic_light =
      trafficLightsGet (pythonRound (round1 (mean (collectedScores csW.criterion_key [baW])))) ∧
    mean [5, 4, 3] = 4 ∧ mean [2, 3] = 5/2 ∧
    trafficLightsGet 3 = "🟡" ∧ trafficLightsGet 4 = "🟢" ∧ trafficLightsGet 2 = "🔴" :=
  c3_traffic_light_rounding stubs0.reasoning [baW] csW
    (by rw [aggW_eval]; exact List.mem_singleton_self _)

/-- A second block analysis scoring the same criterion 3 (no quotes). -/
def baC2 : BlockAnalysis :=
  { block_number := .nat 2, time_range := "00:30-01:00",
    criteria_scores :=
      [{ criterion_key := "struktur_klarheit", criterion_name_de := "Struktur & Klarheit",
         score := 3, traffic_light := "🟡", justification := "", quotes := [] }],
    overall_block_score := 3 }

/-- The consolidated criterion for scores `[2, 3]`: average `2.5`, and
Python's `round(2.5) = 2` (ties to even) gives the red light. -/
def csC : CriterionScore :=
  { criterion_key := "struktur_klarheit", criterion_name_de := "Struktur & Klarheit",
    score := 5/2, traffic_light := "🔴", justification := "",
    quotes := ["q1", "q2"] }

theorem aggC_eval : aggregate_criterion_scores stubs0.reasoning [baW, baC2] = [csC] := by
  have hr : round1 ((5 : ℚ)/2) = 5/2 := by
    rw [round1, pythonRound]
    norm_num
  have hp : pythonRound ((5 : ℚ)/2) = 2 := by
    rw [pythonRound]
    norm_num
  norm_num [aggregate_criterion_scores, collectTotals, collectQuotes, collectJusts,
    bumpStep, bump, baW, baC2, csIn, csC, consolidateOne, mget, List.lookup, mean,
    trafficLightsGet, TRAFFIC_LIGHTS, EVALUATION_CRITERIA, stubs0,
    List.insertionSort, List.orderedInsert, hr, hp]
  decide

/-- C3 counterexample: for collected scores `[2, 3]` (average `2.5`) the
code's traffic light is red, because Python's `round` sends the tie `2.5`
to the even integer 2; the claim's "ties round up" rule would send it to 3
and yield yellow. -/
theorem c3_counterexample_ties :
    (aggregate_criterion_scores stubs0.reasoning [baW, baC2]).map
      (fun cs => cs.traffic_light) = ["🔴"] ∧
    mean [(2 : ℚ), 3] = 5/2 ∧
    trafficLightsGet (specRoundHalfUp (round1 (mean [(2 : ℚ), 3]))) = "🟡" ∧
    ("🔴" : String) ≠ "🟡" := by
  have hmean : mean [(2 : ℚ), 3] = 5/2 := by
    rw [mean]
    norm_num
  have hr : round1 ((5 : ℚ)/2) = 5/2 := by
    rw [round1, pythonRound]
    norm_num
  refine ⟨?_, hmean, ?_, by decide⟩
  · rw [aggC_eval]
    rfl
  · rw [hmean, hr, specRoundHalfUp]
    norm_num
    decide

/-- C8 witness: the quote-selection theorem applied to the concrete
one-block run `[baW]`: average 2 ≤ 3, so the first two of the three
collected quotes are kept. -/
theorem c8_quote_selection_witness :
    csW.quotes =
      if round1 (mean (collectedScores csW.criterion_key [baW])) ≤ 3
      then (collectedQuotes csW.criterion_key [baW]).take 2
      else (collectedQuotes csW.criterion_key [baW]).take 1 :=
  c8_quote_selection stubs0.reasoning [baW] csW
    (by rw [aggW_eval]; exact List.mem_singleton_self _)

/-! ### Key tracking for aggregation completeness (C4) -/

theorem rubricKeys_nodup : rubricKeys.Nodup := by decide

theorem rubricKeys_ne_nil : rubricKeys ≠ [] := by decide

theorem keys_foldl_subset (g : CriterionScore → List α) :
    ∀ (cl : List CriterionScore) (m : List (String × List α)),
      (∀ cs ∈ cl, cs.criterion_key ∈ m.map Prod.fst) →
      (cl.foldl (bumpStep g) m).map Prod.fst = m.map Prod.fst := by
  intro cl
  induction cl with
  | nil => intro m _; rfl
  | cons cs cl ih =>
    intro m h
    rw [List.foldl_cons]
    have hkeys : (bumpStep g m cs).map Prod.fst = m.map Prod.fst := by
      rw [bumpStep]
      by_cases hg : (g cs).isEmpty = true
      · rw [if_pos hg]
      · rw [if_neg hg, keys_bump, if_pos (h cs (List.mem_cons_self _ _))]
    rw [ih (bumpStep g m cs) (by rw [hkeys]; exact fun cs' h' => h cs' (List.mem_cons_of_mem _ h')),
      hkeys]

theorem keys_foldl_fresh (g : CriterionScore → List α)
    (hg : ∀ cs, (g cs).isEmpty = false) :
    ∀ (cl : List CriterionScore) (m : List (String × List α)),
      (cl.map (fun cs => cs.criterion_key)).Nodup →
      (∀ cs ∈ cl, cs.criterion_key ∉ m.map Prod.fst) →
      (cl.foldl (bumpStep g) m).map Prod.fst =
        m.map Prod.fst ++ cl.map (fun cs => cs.criterion_key) := by
  intro cl
  induction cl with
  | nil => intro m _ _; simp
  | cons cs cl ih =>
    intro m hnd hfresh
    rw [List.foldl_cons]
    have hstep : (bumpStep g m cs).map Prod.fst = m.map Prod.fst ++ [cs.criterion_key] := by
      rw [bumpStep, if_neg (by rw [hg cs]; simp), keys_bump,
        if_neg (hfresh cs (List.mem_cons_self _ _))]
    have hnd' := (List.nodup_cons.mp hnd).2
    have hhead := (List.nodup_cons.mp hnd).1
    rw [ih (bumpStep g m cs) hnd' ?_, hstep]
    · simp
    · intro cs' h'
      rw [hstep]
      intro hmem
      rcases List.mem_append.mp hmem with hmem | hmem
      · exact hfresh cs' (List.mem_cons_of_mem _ h') hmem
      · have heq : cs'.criterion_key = cs.criterion_key := by simpa using hmem
        have hmm : cs.criterion_key ∈ cl.map (fun cs => cs.criterion_key) := by
          rw [← heq]
          exact List.mem_map_of_mem _ h'
        exact hhead hmm

theorem collectTotals_keys (blocks : List BlockAnalysis) (hne : blocks ≠ [])
    (hall : ∀ b ∈ blocks, b.criteria_scores.map (fun cs => cs.criterion_key) = rubricKeys) :
    (collectTotals blocks).map Prod.fst = rubricKeys := by
  have hgne : ∀ cs : CriterionScore, ([cs.score].isEmpty) = false := fun _ => rfl
  obtain ⟨b, rest, rfl⟩ : ∃ b rest, blocks = b :: rest := by
    cases blocks with
    | nil => exact absurd rfl hne
    | cons b rest => exact ⟨b, rest, rfl⟩
  have hfirst : ((b.criteria_scores.foldl (bumpStep (fun cs => [cs.score])) []).map Prod.fst)
      = rubricKeys := by
    rw [keys_foldl_fresh _ hgne b.criteria_scores []
      (by rw [hall b (List.mem_cons_self _ _)]; exact rubricKeys_nodup)
      (by intro cs _; simp)]
    rw [hall b (List.mem_cons_self _ _)]
    rfl
  have aux : ∀ (bs : List BlockAnalysis) (m : List (String × List ℚ)),
      (∀ b' ∈ bs, b'.criteria_scores.map (fun cs => cs.criterion_key) = rubricKeys) →
      m.map Prod.fst = rubricKeys →
      ((bs.foldl (fun m b' => b'.criteria_scores.foldl (bumpStep (fun cs => [cs.score])) m) m).map
        Prod.fst) = rubricKeys := by
    intro bs
    induction bs with
    | nil => intro m _ hm; exact hm
    | cons b' bs ih =>
      intro m hb hm
      rw [List.foldl_cons]
      refine ih _ (fun x hx => hb x (List.mem_cons_of_mem _ hx)) ?_
      rw [keys_foldl_subset _ _ _ ?_]
      · exact hm
      · intro cs hcs
        rw [hm, ← hb b' (List.mem_cons_self _ _)]
        exact List.mem_map_of_mem _ hcs
  rw [collectTotals, List.foldl_cons]
  exact aux rest _ (fun x hx => hall x (List.mem_cons_of_mem _ hx)) hfirst

theorem bump_values_ne_nil (m : List (String × List α)) (k : String) (vs : List α)
    (hm : ∀ p ∈ m, p.2 ≠ []) (hvs : vs ≠ []) : ∀ p ∈ bump m k vs, p.2 ≠ [] := by
  induction m with
  | nil =>
    intro p hp
    rw [bump] at hp
    have : p = (k, vs) := by simpa using hp
    rw [this]
    exact hvs
  | cons q m ih =>
    obtain ⟨k0, ws⟩ := q
    intro p hp
    rw [bump] at hp
    by_cases h : k0 = k
    · rw [if_pos h] at hp
      rcases List.mem_cons.mp hp with rfl | hp
      · simp [hvs]
      · exact hm p (List.mem_cons_of_mem _ hp)
    · rw [if_neg h] at hp
      rcases List.mem_cons.mp hp with rfl | hp
      · exact hm _ (List.mem_cons_self _ _)
      · exact ih (fun x hx => hm x (List.mem_cons_of_mem _ hx)) p hp

theorem collectTotals_values_ne_nil (blocks : List BlockAnalysis) :
    ∀ p ∈ collectTotals blocks, p.2 ≠ [] := by
  have auxcl : ∀ (cl : List CriterionScore) (m : List (String × List ℚ)),
      (∀ p ∈ m, p.2 ≠ []) →
      ∀ p ∈ cl.foldl (bumpStep (fun cs => [cs.score])) m, p.2 ≠ [] := by
    intro cl
    induction cl with
    | nil => intro m hm; exact hm
    | cons cs cl ih =>
      intro m hm
      rw [List.foldl_cons]
      refine ih _ ?_
      rw [bumpStep, if_neg (by simp)]
      exact bump_values_ne_nil _ _ _ hm (by simp)
  have aux : ∀ (bs : List BlockAnalysis) (m : List (String × List ℚ)),
      (∀ p ∈ m, p.2 ≠ []) →
      ∀ p ∈ bs.foldl
        (fun m b => b.criteria_scores.foldl (bumpStep (fun cs => [cs.score])) m) m, p.2 ≠ [] := by
    intro bs
    induction bs with
    | nil => intro m hm; exact hm
    | cons b bs ih =>
      intro m hm
      rw [List.foldl_cons]
      exact ih _ (auxcl _ _ hm)
  exact aux blocks [] (by simp)

theorem filterMap_consolidate_eq_map
    (r : String → String → ℚ → List String → List String → String)
    (blocks : List BlockAnalysis) :
    ∀ (l : List (String × List ℚ)), (∀ p ∈ l, p.2 ≠ []) →
      l.filterMap (fun p => if p.2.isEmpty then none
        else some (consolidateOne r blocks p.1 p.2)) =
      l.map (fun p => consolidateOne r blocks p.1 p.2) := by
  intro l
  induction l with
  | nil => intro _; rfl
  | cons p l ih =>
    intro h
    have hpe : p.2.isEmpty = false := by
      have := h p (List.mem_cons_self _ _)
      cases hp2 : p.2 with
      | nil => exact absurd hp2 this
      | cons a t => rfl
    rw [List.filterMap_cons, hpe]
    simp only [Bool.false_eq_true, if_false]
    rw [ih (fun x hx => h x (List.mem_cons_of_mem _ hx))]
    rfl

theorem rubricKeys_rank_pairwise :
    List.Pairwise (fun a b => criterionRank a ≤ criterionRank b) rubricKeys := by decide

/-- With every block carrying exactly the rubric's keys (in rubric order),
the aggregator's consolidated list carries exactly the rubric's keys, in
rubric order. -/
theorem agg_keys (r : String → String → ℚ → List String → List String → String)
    (blocks : List BlockAnalysis) (hne : blocks ≠ [])
    (hall : ∀ b ∈ blocks, b.criteria_scores.map (fun cs => cs.criterion_key) = rubricKeys) :
    (aggregate_criterion_scores r blocks).map (fun cs => cs.criterion_key) = rubricKeys := by
  have hvals := collectTotals_values_ne_nil blocks
  have hkeys := collectTotals_keys blocks hne hall
  rw [aggregate_criterion_scores, filterMap_consolidate_eq_map r blocks _ hvals]
  have hmapkeys : ((collectTotals blocks).map (fun p => consolidateOne r blocks p.1 p.2)).map
      (fun cs => cs.criterion_key) = rubricKeys := by
    rw [List.map_map]
    have : ((fun cs : CriterionScore => cs.criterion_key) ∘
        fun p : String × List ℚ => consolidateOne r blocks p.1 p.2) = Prod.fst := by
      funext p
      exact consolidateOne_key r blocks p.1 p.2
    rw [this, hkeys]
  have hsorted : List.Sorted aggRel
      ((collectTotals blocks).map (fun p => consolidateOne r blocks p.1 p.2)) := by
    have h1 : List.Pairwise (fun a b => criterionRank a ≤ criterionRank b)
        (((collectTotals blocks).map (fun p => consolidateOne r blocks p.1 p.2)).map
          (fun cs => cs.criterion_key)) := by
      rw [hmapkeys]
      exact rubricKeys_rank_pairwise
    exact (List.pairwise_map
      (f := fun cs : CriterionScore => cs.criterion_key)
      (R := fun a b : String => criterionRank a ≤ criterionRank b)).mp h1
  rw [List.Sorted.insertionSort_eq hsorted, hmapkeys]

/-- `_parse_api_response` emits exactly one `CriterionScore` per rubric key,
in rubric order, whatever the (possibly partial) response contains. -/
theorem parse_keys (criteria_data : List (String × CritResult)) (block : TimeBlock) :
    (parse_api_response criteria_data block).criteria_scores.map
      (fun cs => cs.criterion_key) = rubricKeys := rfl

/-- C4 (amended to nonempty input): for every nonempty list of evaluator
responses parsed by `_parse_api_response`, every rubric key appears exactly
once in each segment evaluation and exactly once — in rubric order — in the
final aggregated report, even when responses are missing criteria (they are
filled with the neutral default, not dropped). With zero evaluations the
report instead has an empty criteria list (see the counterexample). -/
theorem c4_rubric_completeness (stubs : LlmStubs)
    (datas : List (List (String × CritResult) × TimeBlock)) (hne : datas ≠ []) :
    (∀ d ∈ datas, (parse_api_response d.1 d.2).criteria_scores.map
      (fun cs => cs.criterion_key) = rubricKeys) ∧
    (∃ a, aggregate_scores stubs (datas.map (fun d => parse_api_response d.1 d.2)) =
        .ok a ∧
      a.criteria_scores.map (fun cs => cs.criterion_key) = rubricKeys ∧
      rubricKeys.Nodup ∧ rubricKeys.length = 10) := by
  refine ⟨fun d _ => parse_keys d.1 d.2, ?_⟩
  set evals := datas.map (fun d => parse_api_response d.1 d.2) with hevals
  set agg := aggregate_criterion_scores stubs.reasoning evals with hagg
  have hne' : evals ≠ [] := by simpa [hevals] using hne
  have hall : ∀ b ∈ evals, b.criteria_scores.map (fun cs => cs.criterion_key) = rubricKeys := by
    intro b hb
    rw [hevals] at hb
    obtain ⟨d, _, rfl⟩ := List.mem_map.mp hb
    exact parse_keys d.1 d.2
  have hkeys : agg.map (fun cs => cs.criterion_key) = rubricKeys :=
    agg_keys stubs.reasoning _ hne' hall
  have haggne : agg ≠ [] := by
    intro h
    rw [h] at hkeys
    exact rubricKeys_ne_nil hkeys.symm
  have h1 : evals.isEmpty = false := by
    cases hv : evals with
    | nil => exact absurd hv hne'
    | cons a t => rfl
  have h2 : agg.isEmpty = false := by
    cases hv : agg with
    | nil => exact absurd hv haggne
    | cons a t => rfl
  have hmain : aggregate_scores stubs evals = .ok
      { overall_score := round1 ((agg.map (fun cs => cs.score)).sum / (agg.length : ℚ))
        criteria_scores := agg
        raw_analysis := some (stubs.consolidate evals)
        strengths := []
        improvement_suggestions := []
        management_summary :=
          { markdown := some (stubs.mgmt
              (round1 ((agg.map (fun cs => cs.score)).sum / (agg.length : ℚ))) agg evals)
            bullets := none
            detailed := none } } := by
    rw [aggregate_scores]
    simp only [h1, h2, ← hagg, Bool.false_eq_true, if_false]
  exact ⟨_, hmain, hkeys, rubricKeys_nodup, rfl⟩

/-- C4 counterexample: with zero segment evaluations the aggregated report
exists but carries an empty criteria list, not the `len(rubric) = 10`
criteria the claim requires for every list of evaluations. -/
theorem c4_counterexample_empty :
    aggregate_scores stubs0
        (([] : List (List (String × CritResult) × TimeBlock)).map
          (fun d => parse_api_response d.1 d.2)) = .ok create_empty_analysis ∧
    create_empty_analysis.criteria_scores.map (fun cs => cs.criterion_key) = [] ∧
    rubricKeys.length = 10 ∧ ([] : List String) ≠ rubricKeys := by
  refine ⟨?_, rfl, rfl, by decide⟩
  rw [aggregate_scores]
  simp

/-- A concrete time block for the C4 witness. -/
def tbW : TimeBlock :=
  { block_number := .nat 1, start_time := "00:00", end_time := "00:30", content := "" }

/-- C4 witness: one segment whose evaluator response is entirely missing
(every criterion falls back to the neutral default) still yields all 10
rubric criteria, in order, in both the evaluation and the report. -/
theorem c4_rubric_completeness_witness :
    (∀ d ∈ [(([] : List (String × CritResult)), tbW)],
      (parse_api_response d.1 d.2).criteria_scores.map
        (fun cs => cs.criterion_key) = rubricKeys) ∧
    (∃ a, aggregate_scores stubs0
        ([(([] : List (String × CritResult)), tbW)].map
          (fun d => parse_api_response d.1 d.2)) = .ok a ∧
      a.criteria_scores.map (fun cs => cs.criterion_key) = rubricKeys ∧
      rubricKeys.Nodup ∧ rubricKeys.length = 10) :=
  c4_rubric_completeness stubs0 [(([] : List (String × CritResult)), tbW)] (by simp)

/-! ### Coverage of the fixed time windows (C1) -/

theorem mkBlockInfo_entries (n : ℕ) (lo hi : ℚ) (bes : List VTTEntry) :
    (mkBlockInfo n lo hi bes).entries = bes := rfl

theorem numberBlocks_flatMap (D : ℚ) :
    ∀ (ws : List (ℕ × List VTTEntry)) (n : ℕ),
      (numberBlocks D n ws).flatMap (fun b => b.entries) = (ws.map Prod.snd).flatten := by
  intro ws
  induction ws with
  | nil => intro n; rfl
  | cons w ws ih =>
    intro n
    obtain ⟨k, bes⟩ := w
    rw [numberBlocks]
    simp only [List.flatMap_cons, List.map_cons, List.flatten_cons, mkBlockInfo_entries, ih]

theorem mem_numberBlocks (D : ℚ) :
    ∀ (ws : List (ℕ × List VTTEntry)) (n : ℕ) (b : BlockInfo), b ∈ numberBlocks D n ws →
      ∃ m p, p ∈ ws ∧ b = mkBlockInfo m ((p.1 : ℚ) * D) ((p.1 : ℚ) * D + D) p.2 := by
  intro ws
  induction ws with
  | nil => intro n b h; simp [numberBlocks] at h
  | cons w ws ih =>
    intro n b h
    obtain ⟨k, bes⟩ := w
    rw [numberBlocks] at h
    rcases List.mem_cons.mp h with rfl | h
    · exact ⟨n, (k, bes), List.mem_cons_self _ _, rfl⟩
    · obtain ⟨m, p, hp, rfl⟩ := ih (n + 1) _ h
      exact ⟨m, p, List.mem_cons_of_mem _ hp, rfl⟩

theorem mem_nonemptyWindows (entries : List VTTEntry) (D total : ℚ) :
    ∀ p ∈ nonemptyWindows entries D total,
      p.2 = blockEntries entries ((p.1 : ℚ) * D) ((p.1 : ℚ) * D + D) ∧ p.2 ≠ [] := by
  intro p hp
  rw [nonemptyWindows] at hp
  obtain ⟨k, _, hk⟩ := List.mem_filterMap.mp hp
  by_cases he : (blockEntries entries ((k : ℚ) * D) ((k : ℚ) * D + D)).isEmpty = true
  · rw [if_pos he] at hk
    exact absurd hk (by simp)
  · rw [if_neg he] at hk
    have := Option.some.inj hk
    rw [← this]
    exact ⟨rfl, by simpa [List.isEmpty_iff] using he⟩

theorem nonemptyWindows_flatten (entries : List VTTEntry) (D total : ℚ) :
    ((nonemptyWindows entries D total).map Prod.snd).flatten =
      ((List.range ⌈total / D⌉₊).map
        (fun (k : ℕ) => blockEntries entries ((k : ℚ) * D) ((k : ℚ) * D + D))).flatten := by
  rw [nonemptyWindows]
  generalize List.range ⌈total / D⌉₊ = ks
  induction ks with
  | nil => rfl
  | cons k ks ih =>
    rw [List.filterMap_cons]
    by_cases he : (blockEntries entries ((k : ℚ) * D) ((k : ℚ) * D + D)).isEmpty = true
    · rw [if_pos he]
      have hnil : blockEntries entries ((k : ℚ) * D) ((k : ℚ) * D + D) = [] := by
        simpa [List.isEmpty_iff] using he
      simp only [List.map_cons, List.flatten_cons, hnil, List.nil_append, ih]
    · rw [if_neg he]
      simp only [List.map_cons, List.flatten_cons, ih]

/-- Splitting a list by a sequence of pairwise-exclusive window filters
(each element passes exactly one window's filter) reassembles the list up to
permutation. -/
theorem flatten_filters_perm :
    ∀ (ws : List (ℚ × ℚ)) (l : List VTTEntry),
      (∀ e ∈ l, ws.countP
        (fun w => decide (w.1 ≤ e.start_seconds) && decide (e.start_seconds < w.2)) = 1) →
      ((ws.map (fun w => blockEntries l w.1 w.2)).flatten).Perm l := by
  intro ws
  induction ws with
  | nil =>
    intro l h
    cases l with
    | nil => simp
    | cons e l =>
      have := h e (List.mem_cons_self _ _)
      simp at this
  | cons w ws ih =>
    intro l h
    have hcount : ∀ e ∈ l,
        (if (decide (w.1 ≤ e.start_seconds) && decide (e.start_seconds < w.2)) = true
          then 1 else 0) + ws.countP
            (fun v => decide (v.1 ≤ e.start_seconds) && decide (e.start_seconds < v.2)) = 1 := by
      intro e he
      have := h e he
      rw [List.countP_cons] at this
      omega
    have hdisj : ∀ e ∈ l,
        (decide (w.1 ≤ e.start_seconds) && decide (e.start_seconds < w.2)) = true →
        ws.countP (fun v => decide (v.1 ≤ e.start_seconds) && decide (e.start_seconds < v.2))
          = 0 := by
      intro e he hp
      have := hcount e he
      rw [if_pos hp] at this
      omega
    have hmapeq : ∀ v ∈ ws, blockEntries l v.1 v.2 =
        blockEntries (l.filter
          (fun e => !(decide (w.1 ≤ e.start_seconds) && decide (e.start_seconds < w.2)))) v.1
          v.2 := by
      intro v hv
      rw [blockEntries, blockEntries, List.filter_filter]
      refine List.filter_congr ?_
      intro e he
      by_cases hp : (decide (w.1 ≤ e.start_seconds) && decide (e.start_seconds < w.2)) = true
      · have hq0 : (decide (v.1 ≤ e.start_seconds) && decide (e.start_seconds < v.2)) = false := by
          cases hqv : (decide (v.1 ≤ e.start_seconds) && decide (e.start_seconds < v.2)) with
          | false => rfl
          | true =>
            exfalso
            have h0 := hdisj e he hp
            have hpos : 0 < ws.countP
                (fun v => decide (v.1 ≤ e.start_seconds) && decide (e.start_seconds < v.2)) :=
              List.countP_pos_iff.mpr ⟨v, hv, hqv⟩
            omega
        rw [hq0]
        simp
      · have hp0 : (decide (w.1 ≤ e.start_seconds) && decide (e.start_seconds < w.2)) = false := by
          cases hb : (decide (w.1 ≤ e.start_seconds) && decide (e.start_seconds < w.2)) with
          | false => rfl
          | true => exact absurd hb hp
        rw [hp0]
        simp
    have hrec : ((ws.map (fun v => blockEntries l v.1 v.2)).flatten).Perm
        (l.filter
          (fun e => !(decide (w.1 ≤ e.start_seconds) && decide (e.start_seconds < w.2)))) := by
      rw [List.map_congr_left hmapeq]
      refine ih _ ?_
      intro e he
      have hmem := (List.mem_filter.mp he).1
      have hnp := (List.mem_filter.mp he).2
      have hp : (decide (w.1 ≤ e.start_seconds) && decide (e.start_seconds < w.2)) = false := by
        cases hb : (decide (w.1 ≤ e.start_seconds) && decide (e.start_seconds < w.2)) with
        | false => rfl
        | true => rw [hb] at hnp; simp at hnp
      have := hcount e hmem
      rw [hp] at this
      simpa using this
    have hsplit : ((w :: ws).map (fun v => blockEntries l v.1 v.2)).flatten =
        l.filter (fun e => decide (w.1 ≤ e.start_seconds) && decide (e.start_seconds < w.2)) ++
          ((ws.map (fun v => blockEntries l v.1 v.2)).flatten) := by
      simp only [List.map_cons, List.flatten_cons]
      rfl
    rw [hsplit]
    exact (hrec.append_left _).trans (List.filter_append_perm _ l)

theorem filter_eq_singleton (pred : ℕ → Bool) :
    ∀ (l : List ℕ) (k0 : ℕ), l.Nodup → k0 ∈ l → (∀ b ∈ l, pred b = true ↔ b = k0) →
      l.filter pred = [k0] := by
  intro l
  induction l with
  | nil => intro k0 _ h; simp at h
  | cons a l ih =>
    intro k0 hnd hmem hiff
    by_cases ha : a = k0
    · subst ha
      rw [List.filter_cons, if_pos ((hiff a (List.mem_cons_self _ _)).mpr rfl)]
      have hrest : l.filter pred = [] := by
        rw [List.filter_eq_nil_iff]
        intro b hb hpb
        have : b = a := (hiff b (List.mem_cons_of_mem _ hb)).mp hpb
        exact (List.nodup_cons.mp hnd).1 (this ▸ hb)
      rw [hrest]
    · have hpa : ¬ pred a = true := fun hpa => ha ((hiff a (List.mem_cons_self _ _)).mp hpa)
      rw [List.filter_cons, if_neg hpa]
      refine ih k0 (List.nodup_cons.mp hnd).2 ?_
        (fun b hb => hiff b (List.mem_cons_of_mem _ hb))
      rcases List.mem_cons.mp hmem with rfl | hmem
      · exact absurd rfl ha
      · exact hmem

/-- Each entry with `0 ≤ start < total` falls in exactly one of the loop's
fixed windows `[k·D, (k+1)·D)`, `k < ⌈total / D⌉₊`. -/
theorem window_countP (s total D : ℚ) (hD : 0 < D) (h0 : 0 ≤ s) (hlt : s < total) :
    ((List.range ⌈total / D⌉₊).map
      (fun (k : ℕ) => (((k : ℚ) * D), ((k : ℚ) * D + D)))).countP
      (fun w => decide (w.1 ≤ s) && decide (s < w.2)) = 1 := by
  rw [List.countP_map]
  have hps : ((fun (w : ℚ × ℚ) => decide (w.1 ≤ s) && decide (s < w.2)) ∘
      (fun (k : ℕ) => (((k : ℚ) * D), ((k : ℚ) * D + D)))) =
      fun (k : ℕ) => decide ((k : ℚ) * D ≤ s) && decide (s < (k : ℚ) * D + D) := rfl
  rw [hps]
  have hdiv0 : 0 ≤ s / D := div_nonneg h0 hD.le
  have hfl : (⌊s / D⌋₊ : ℚ) ≤ s / D := Nat.floor_le hdiv0
  have hfu : s / D < (⌊s / D⌋₊ : ℚ) + 1 := Nat.lt_floor_add_one (s / D)
  have hkd : (⌊s / D⌋₊ : ℚ) * D ≤ s := (le_div_iff hD).mp hfl
  have hks : s < (⌊s / D⌋₊ : ℚ) * D + D := by
    have := (div_lt_iff hD).mp hfu
    nlinarith
  have hkn : ⌊s / D⌋₊ < ⌈total / D⌉₊ := by
    refine Nat.lt_ceil.mpr (lt_of_le_of_lt hfl ?_)
    exact (div_lt_div_right hD).mpr hlt
  have huniq : ∀ k : ℕ, (k : ℚ) * D ≤ s → s < (k : ℚ) * D + D → k = ⌊s / D⌋₊ := by
    intro k h1 h2
    have hk1 : (k : ℚ) ≤ s / D := (le_div_iff hD).mpr h1
    have hk2 : s / D < (k : ℚ) + 1 := by
      refine (div_lt_iff hD).mpr ?_
      nlinarith
    exact ((Nat.floor_eq_iff hdiv0).mpr ⟨hk1, hk2⟩).symm
  rw [List.countP_eq_length_filter,
    filter_eq_singleton _ _ ⌊s / D⌋₊ (List.nodup_range _) (List.mem_range.mpr hkn) ?_]
  · rfl
  · intro b _
    constructor
    · intro hb
      simp only [Bool.and_eq_true] at hb
      exact huniq b (of_decide_eq_true hb.1) (of_decide_eq_true hb.2)
    · intro hb
      subst hb
      rw [decide_eq_true hkd, decide_eq_true hks]
      rfl

/-- C1 (amended): provided every entry's start offset lies in
`[0, total_duration)` — with `total_duration` the LAST entry's `end_seconds`,
as the code computes it — the emitted blocks contain every input entry
exactly once (their entry lists are a permutation of the input), and a
window with no entry start emits no block (every emitted block has a
nonempty entry list). An entry starting at or after `total_duration`
(e.g. at the exact end of the timeline, or any entry when the input is not
sorted by start time) is silently dropped; see the counterexample. -/
theorem c1_segment_coverage (entries : List VTTEntry) (block_duration_minutes : ℕ)
    (hD : 0 < block_duration_minutes) (hne : entries ≠ [])
    (hbound : ∀ e ∈ entries, 0 ≤ e.start_seconds ∧
      e.start_seconds < (entries.getLastD default).end_seconds) :
    ((group_by_time_blocks entries block_duration_minutes).flatMap
      (fun b => b.entries)).Perm entries ∧
    ∀ b ∈ group_by_time_blocks entries block_duration_minutes, b.entries ≠ [] := by
  have hne' : entries.isEmpty = false := by
    cases entries with
    | nil => exact absurd rfl hne
    | cons a t => rfl
  have hD' : (0 : ℚ) < (block_duration_minutes : ℚ) * 60 := by
    have h1 : (0 : ℚ) < (block_duration_minutes : ℚ) := by exact_mod_cast hD
    nlinarith
  constructor
  · rw [group_by_time_blocks]
    simp only [hne', Bool.false_eq_true, if_false]
    rw [numberBlocks_flatMap, nonemptyWindows_flatten]
    rw [show (fun (k : ℕ) => blockEntries entries
          ((k : ℚ) * ((block_duration_minutes : ℚ) * 60))
          ((k : ℚ) * ((block_duration_minutes : ℚ) * 60) +
            (block_duration_minutes : ℚ) * 60)) =
        ((fun (w : ℚ × ℚ) => blockEntries entries w.1 w.2) ∘
          (fun (k : ℕ) => (((k : ℚ) * ((block_duration_minutes : ℚ) * 60)),
            ((k : ℚ) * ((block_duration_minutes : ℚ) * 60) +
              (block_duration_minutes : ℚ) * 60)))) from rfl]
    rw [← List.map_map]
    refine flatten_filters_perm _ entries ?_
    intro e he
    exact window_countP e.start_seconds _ _ hD' (hbound e he).1 (hbound e he).2
  · intro b hb
    rw [group_by_time_blocks] at hb
    simp only [hne', Bool.false_eq_true, if_false] at hb
    obtain ⟨m, p, hp, rfl⟩ := mem_numberBlocks _ _ _ _ hb
    rw [mkBlockInfo_entries]
    exact (mem_nonemptyWindows _ _ _ p hp).2

/-- The single entry of the C1 witness transcript. -/
def e1W : VTTEntry :=
  { start_seconds := 0, end_seconds := 60, text := "hallo", speaker := none }

/-- A well-behaved one-entry transcript for the C1 witness. -/
def c1entriesW : List VTTEntry := [e1W]

/-- C1 witness: the coverage theorem applied to a concrete sorted transcript
whose entry starts inside the timeline. -/
theorem c1_segment_coverage_witness :
    ((group_by_time_blocks c1entriesW 30).flatMap (fun b => b.entries)).Perm c1entriesW ∧
    ∀ b ∈ group_by_time_blocks c1entriesW 30, b.entries ≠ [] :=
  c1_segment_coverage c1entriesW 30 (by norm_num) (by simp [c1entriesW])
    (by
      intro e he
      have he' : e = e1W := by simpa [c1entriesW] using he
      subst he'
      constructor
      · norm_num [e1W]
      · show (0 : ℚ) < (c1entriesW.getLastD default).end_seconds
        norm_num [c1entriesW, e1W])

/-- The single entry of the C1 counterexample transcript: it starts exactly
at the timeline's total duration (`start = end = 1800`, one window length). -/
def e1C : VTTEntry :=
  { start_seconds := 1800, end_seconds := 1800, text := "x", speaker := none }

/-- The C1 counterexample transcript. -/
def c1entriesC : List VTTEntry := [e1C]

/-- C1 counterexample: the single entry of `c1entriesC` starts at
`total_duration = 1800`, so the loop's only window `[0, 1800)` misses it:
no block is emitted and the entry is dropped, refuting "every entry appears
exactly once" for arbitrary entry lists. -/
theorem c1_counterexample_boundary_drop :
    group_by_time_blocks c1entriesC 30 = [] ∧
    ¬ ((group_by_time_blocks c1entriesC 30).flatMap (fun b => b.entries)).Perm c1entriesC := by
  have hbe : blockEntries c1entriesC (((0 : ℕ) : ℚ) * (((30 : ℕ) : ℚ) * 60))
      (((0 : ℕ) : ℚ) * (((30 : ℕ) : ℚ) * 60) + ((30 : ℕ) : ℚ) * 60) = [] := by
    rw [blockEntries, c1entriesC, List.filter_cons]
    have hcond : (decide ((((0 : ℕ) : ℚ) * (((30 : ℕ) : ℚ) * 60)) ≤ e1C.start_seconds) &&
        decide (e1C.start_seconds < ((0 : ℕ) : ℚ) * (((30 : ℕ) : ℚ) * 60) +
          ((30 : ℕ) : ℚ) * 60)) = false := by
      have h2 : ¬ (e1C.start_seconds < ((0 : ℕ) : ℚ) * (((30 : ℕ) : ℚ) * 60) +
          ((30 : ℕ) : ℚ) * 60) := by
        norm_num [e1C]
      rw [decide_eq_false h2]
      rw [Bool.and_false]
    rw [hcond]
    simp
  have hceil : ⌈(c1entriesC.getLastD default).end_seconds / (((30 : ℕ) : ℚ) * 60)⌉₊ = 1 := by
    have : (c1entriesC.getLastD default).end_seconds = 1800 := rfl
    rw [this]
    norm_num
  have hwin : nonemptyWindows c1entriesC (((30 : ℕ) : ℚ) * 60)
      (c1entriesC.getLastD default).end_seconds = [] := by
    have hr1 : List.range 1 = [0] := rfl
    rw [nonemptyWindows, hceil, hr1]
    rw [List.filterMap_cons]
    simp only [hbe, List.isEmpty_nil, if_true]
    rfl
  have hgrp : group_by_time_blocks c1entriesC 30 = [] := by
    rw [group_by_time_blocks]
    have h1 : c1entriesC.isEmpty = false := rfl
    simp only [h1, Bool.false_eq_true, if_false]
    rw [hwin]
    rfl
  refine ⟨hgrp, ?_⟩
  rw [hgrp]
  intro hperm
  have := hperm.length_eq
  simp [c1entriesC] at this

/-! ### Error propagation of the time parser (C7) -/

/-- Every error `_time_to_seconds` raises carries the message
`"Invalid time format: <time string>"`, naming the offending time. -/
theorem time_to_seconds_error (t m : String) :
    time_to_seconds t = .error m → m = "Invalid time format: " ++ t := by
  rw [time_to_seconds]
  intro h
  split at h
  · split at h
    · exact absurd h (by simp)
    · exact (Except.error.inj h).symm
  · exact (Except.error.inj h).symm

/-- C7 (amended): a malformed time string fails the whole caption parse —
a successful parse returns one entry per caption, and a failing parse
returns the error of the first offending caption's time field, whose
message names that time string, with no partial entry list. The VTT
chunking wrapper, however, catches the failure and returns an empty block
list instead of aborting the pipeline (the caller then falls back to
content-based chunking). -/
theorem c7_parse_abort (captions : List RawCaption) :
    (∀ l, parse_vtt_captions captions = .ok l → l.length = captions.length) ∧
    (∀ m, parse_vtt_captions captions = .error m →
      (∃ c ∈ captions,
        time_to_seconds c.startStr = .error m ∨ time_to_seconds c.endStr = .error m) ∧
      ∃ t, m = "Invalid time format: " ++ t) ∧
    (∀ m, parse_vtt_captions captions = .error m →
      ∀ count, chunk_from_vtt count captions = []) := by
  have hmsg : ∀ (c : RawCaption) (m : String),
      (time_to_seconds c.startStr = .error m ∨ time_to_seconds c.endStr = .error m) →
      ∃ t, m = "Invalid time format: " ++ t := by
    intro c m hc
    rcases hc with hc | hc
    · exact ⟨c.startStr, time_to_seconds_error _ _ hc⟩
    · exact ⟨c.endStr, time_to_seconds_error _ _ hc⟩
  have main : ∀ (cs : List RawCaption),
      (∀ l, parse_vtt_captions cs = .ok l → l.length = cs.length) ∧
      (∀ m, parse_vtt_captions cs = .error m →
        ∃ c ∈ cs,
          time_to_seconds c.startStr = .error m ∨ time_to_seconds c.endStr = .error m) := by
    intro cs
    induction cs with
    | nil =>
      constructor
      · intro l hl
        rw [parse_vtt_captions] at hl
        rw [← Except.ok.inj hl]
        rfl
      · intro m hm
        rw [parse_vtt_captions] at hm
        exact absurd hm (by simp)
    | cons c cs ih =>
      constructor
      · intro l hl
        rw [parse_vtt_captions] at hl
        cases hs : time_to_seconds c.startStr with
        | error ms => rw [hs] at hl; exact absurd hl (by simp [Bind.bind, Except.bind])
        | ok vs =>
          cases he : time_to_seconds c.endStr with
          | error me => rw [hs, he] at hl; exact absurd hl (by simp [Bind.bind, Except.bind])
          | ok ve =>
            cases hr : parse_vtt_captions cs with
            | error mr => rw [hs, he, hr] at hl; exact absurd hl (by simp [Bind.bind, Except.bind])
            | ok lr =>
              rw [hs, he, hr] at hl
              have hcons : (VTTEntry.mk vs ve (extract_speaker c.text).2
                  (extract_speaker c.text).1) :: lr = l := by
                simpa [Bind.bind, Except.bind, Pure.pure, Except.pure] using hl
              rw [← hcons]
              simp [ih.1 lr hr]
      · intro m hm
        rw [parse_vtt_captions] at hm
        cases hs : time_to_seconds c.startStr with
        | error ms =>
          rw [hs] at hm
          have : ms = m := by simpa [Bind.bind, Except.bind] using hm
          exact ⟨c, List.mem_cons_self _ _, Or.inl (this ▸ hs)⟩
        | ok vs =>
          cases he : time_to_seconds c.endStr with
          | error me =>
            rw [hs, he] at hm
            have : me = m := by simpa [Bind.bind, Except.bind] using hm
            exact ⟨c, List.mem_cons_self _ _, Or.inr (this ▸ he)⟩
          | ok ve =>
            cases hr : parse_vtt_captions cs with
            | error mr =>
              rw [hs, he, hr] at hm
              have hmr : mr = m := by
                simpa [Bind.bind, Except.bind, Pure.pure, Except.pure] using hm
              obtain ⟨c', hc', hor⟩ := ih.2 mr hr
              exact ⟨c', List.mem_cons_of_mem _ hc', hmr ▸ hor⟩
            | ok lr =>
              rw [hs, he, hr] at hm
              exact absurd hm (by simp [Bind.bind, Except.bind, Pure.pure, Except.pure])
  refine ⟨(main captions).1, ?_, ?_⟩
  · intro m hm
    obtain ⟨c, hc, hor⟩ := (main captions).2 m hm
    exact ⟨⟨c, hc, hor⟩, hmsg c m hor⟩
  · intro m hm count
    rw [chunk_from_vtt, hm]

/-- A caption whose start time is not a valid time string. -/
def badCaption : RawCaption := { startStr := "bad", endStr := "00:00:01.000", text := "hello" }

/-- C7 counterexample: on a malformed time the parse fails with the naming
error, but `chunk_from_vtt` swallows the exception and returns `[]` — the
same output as for an empty transcript — instead of aborting the pipeline
(the caller then proceeds with content-based fallback chunking). -/
theorem c7_counterexample_swallowed_error :
    parse_vtt_captions [badCaption] = .error ("Invalid time format: " ++ "bad") ∧
    chunk_from_vtt (fun _ => 0) [badCaption] = [] ∧
    chunk_from_vtt (fun _ => 0) [] = [] := by
  exact ⟨rfl, rfl, rfl⟩

end DF


